import Mathlib

/-!
Verification of the Typst evaluator core (crates/typst/src/eval/mod.rs and
crates/typst/src/eval/scope.rs) against its natural-language specification.

The development shallowly embeds the evaluator: spans are natural numbers,
machine strings are Lean strings, the mutable scope stack and VM state are
threaded explicitly, and Rust functions returning SourceResult are embedded
as functions returning an explicit result together with the final state
(mirroring the behaviour of `&mut` receivers, which keep their mutations
even when an error is propagated with `?`).

Parts of the repository that the claims depend on but whose sources are not
available (ops.rs, value.rs, cast.rs, func.rs, methods.rs, maybe_mut.rs,
file.rs and the manifest code) are modelled from the specification; each such
definition carries a doc comment starting with "Modelled from the spec:".
-/

namespace TypstEval

/-- Spans are opaque identifiers of syntax locations; we model them as Nat. -/
abbrev SpanM := Nat

/-- A source error: primary span plus message (diag::SourceError essentials). -/
structure SErr where
  span : SpanM
  msg : String
deriving DecidableEq, Repr

/-- A package spec `@namespace/name:version` (file.rs PackageSpec). -/
structure PackageSpecM where
  ns : String
  name : String
  version : String
deriving DecidableEq, Repr

/-- A file id: an optional package spec plus a path (file.rs FileId). -/
structure FileIdM where
  pkg : Option PackageSpecM
  path : String
deriving DecidableEq, Repr

/-- A module handle: its name and originating file id. The binding scope and
content of a module are not inspected by the claims under verification. -/
structure ModuleM where
  name : String
  fid : Option FileIdM
deriving DecidableEq, Repr

/-- Modelled from the spec: the opaque content tree. The evaluator only calls
a fixed set of language-item constructors on it; we keep the constructors the
embedded fragment needs (text, sequence, math accent, math delimited). -/
inductive ContentM where
  | text (s : String)
  | seqC (xs : List ContentM)
  | accent (base : ContentM) (c : Char)
  | delimited (openPart body closePart : ContentM)
deriving Repr

/-- The value type (eval::Value), restricted to the variants reachable by the
embedded expression fragment. -/
inductive Value where
  | none
  | bool (b : Bool)
  | int (i : Int)
  | str (s : String)
  | array (xs : List Value)
  | dict (xs : List (String × Value))
  | func (name : String)
  | module (m : ModuleM)
  | symbol (c : Char)
  | content (c : ContentM)
deriving Repr

/-- Modelled from the spec: Value::type_name (value.rs is not in the sources);
names follow the documented value variants. -/
def typeNameOf : Value → String
  | Value.none => "none"
  | Value.bool _ => "boolean"
  | Value.int _ => "integer"
  | Value.str _ => "string"
  | Value.array _ => "array"
  | Value.dict _ => "dictionary"
  | Value.func _ => "function"
  | Value.module _ => "module"
  | Value.symbol _ => "symbol"
  | Value.content _ => "content"

/-- The kinds of slots (scope.rs Kind): a normal mutable binding or a
captured, immutable copy. -/
inductive SlotKind where
  | normal
  | captured
deriving DecidableEq, Repr

/-- A slot where a value is stored (scope.rs Slot). -/
structure SlotM where
  value : Value
  kind : SlotKind

/-- A single scope: a map from binding names to slots (scope.rs Scope).
The BTreeMap is modelled as an association list with at most one entry per
key; lookup takes the first matching entry. -/
abbrev ScopeM := List (String × SlotM)

/-- Lookup in a single scope (scope.rs Scope::get). -/
def scopeGet (sc : ScopeM) (var : String) : Option SlotM :=
  match sc with
  | [] => Option.none
  | (k, s) :: rest => if k = var then some s else scopeGet rest var

/-- Map insertion: replaces an existing entry for the key or appends a new
one (scope.rs Scope::define / define_captured via BTreeMap::insert). -/
def scopeInsert (sc : ScopeM) (var : String) (s : SlotM) : ScopeM :=
  match sc with
  | [] => [(var, s)]
  | (k, s0) :: rest =>
    if k = var then (var, s) :: rest else (k, s0) :: scopeInsert rest var s

/-- The standard library handed to Scopes as base: a global scope and a math
scope (library.rs Library, as used by scope.rs). -/
structure LibraryM where
  global : List (String × Value)
  math : List (String × Value)

/-- Plain lookup in a library scope. -/
def libGet (sc : List (String × Value)) (var : String) : Option Value :=
  match sc with
  | [] => Option.none
  | (k, v) :: rest => if k = var then some v else libGet rest var

/-- A stack of scopes (scope.rs Scopes): the active top scope, the stack of
lower scopes (head = innermost), and the optional base library. -/
structure ScopesM where
  top : ScopeM
  scopes : List ScopeM
  base : Option LibraryM

/-- Enter a new scope (scope.rs Scopes::enter): push the current top and
start a fresh one. -/
def ScopesM.enter (s : ScopesM) : ScopesM :=
  { s with top := [], scopes := s.top :: s.scopes }

/-- Exit the topmost scope (scope.rs Scopes::exit). The source panics when no
scope was entered; that branch is unreachable because every exit follows a
matching enter, and we let it return the state unchanged. -/
def ScopesM.exit (s : ScopesM) : ScopesM :=
  match s.scopes with
  | [] => s
  | t :: rest => { s with top := t, scopes := rest }

/-- Whether the string contains the character (str::contains on a char
pattern), stated over the underlying character list. -/
def strHasChar (s : String) (c : Char) : Bool :=
  s.data.contains c

/-- The error message when a variable is not found (scope.rs
unknown_variable): it names the variable and, when the name contains a minus
sign, appends a hint about subtraction spacing. -/
def unknownVariable (var : String) : String :=
  if strHasChar var '-' then
    "unknown variable: " ++ var ++
      " - if you meant to use subtraction, try adding spaces around the minus sign."
  else
    "unknown variable: " ++ var

/-- Immutable variable access (scope.rs Scopes::get): top scope, then the
stack innermost first, then the base library's global scope. -/
def ScopesM.get (s : ScopesM) (var : String) : Except String Value :=
  match lookupFrames (s.top :: s.scopes) with
  | some slot => Except.ok slot.value
  | Option.none =>
    match s.base with
    | some lib =>
      match libGet lib.global var with
      | some v => Except.ok v
      | Option.none => Except.error (unknownVariable var)
    | Option.none => Except.error (unknownVariable var)
where
  lookupFrames : List ScopeM → Option SlotM
    | [] => Option.none
    | sc :: rest =>
      match scopeGet sc var with
      | some slot => some slot
      | Option.none => lookupFrames rest

/-- Immutable variable access in math (scope.rs Scopes::get_in_math): like
get, but through the base library's math scope, and with a plain error
message built inline (no subtraction hint). -/
def ScopesM.getInMath (s : ScopesM) (var : String) : Except String Value :=
  match lookupFrames (s.top :: s.scopes) with
  | some slot => Except.ok slot.value
  | Option.none =>
    match s.base with
    | some lib =>
      match libGet lib.math var with
      | some v => Except.ok v
      | Option.none => Except.error ("unknown variable: " ++ var)
    | Option.none => Except.error ("unknown variable: " ++ var)
where
  lookupFrames : List ScopeM → Option SlotM
    | [] => Option.none
    | sc :: rest =>
      match scopeGet sc var with
      | some slot => some slot
      | Option.none => lookupFrames rest

/-- The reasons a MaybeMut can be immutable (maybe_mut.rs Immutability, per
the spec's data model: Const, Captured, Temporary). -/
inductive Immutability where
  | const
  | captured
  | temporary
deriving DecidableEq, Repr

/-- Modelled from the spec: a borrowed mutable slot is represented as a path
into the scope stack (frame index + name) possibly extended by dictionary
keys, as the design notes suggest for implementations without borrow
checking. -/
inductive Loc where
  | svar (frame : Nat) (name : String)
  | dentry (parent : Loc) (key : String)
deriving DecidableEq, Repr

/-- A maybe-mutable reference (maybe_mut.rs MaybeMut): either a borrowed
mutable location (which dereferences to its current value) or an owned value
with an immutability reason and a span. -/
inductive MaybeMutM where
  | mutRef (loc : Loc) (val : Value)
  | im (v : Value) (span : SpanM) (reason : Immutability)

/-- Dereference a MaybeMut to its value (MaybeMut's Deref). -/
def MaybeMutM.derefM : MaybeMutM → Value
  | .mutRef _ v => v
  | .im v _ _ => v

/-- Take the value out of a MaybeMut (MaybeMut::take: clones through a Mut,
moves out of an Im). -/
def MaybeMutM.takeM : MaybeMutM → Value
  | .mutRef _ v => v
  | .im v _ _ => v

/-- Modelled from the spec: MaybeMut::spanned re-spans an owned value; a
borrowed location is unaffected. -/
def MaybeMutM.mmSpanned : MaybeMutM → SpanM → MaybeMutM
  | .mutRef l v, _ => .mutRef l v
  | .im v _ r, sp => .im v sp r

/-- MaybeMut::temp: an owned temporary (immutability reason Temporary). -/
def MaybeMutM.temp (v : Value) (sp : SpanM) : MaybeMutM :=
  .im v sp .temporary

/-- Mutable-if-possible variable access (scope.rs Scopes::get_maybe_mut):
searches top scope then the stack (never the base library for mutation);
normal slots give a mutable location, captured slots an immutable copy; base
library entries are immutable constants; otherwise the unknown-variable
error, spanned. -/
def ScopesM.getMaybeMut (s : ScopesM) (var : String) (sp : SpanM) :
    Except SErr MaybeMutM :=
  match lookupFrames (s.top :: s.scopes) 0 with
  | some (i, slot) =>
    match slot.kind with
    | .normal => Except.ok (MaybeMutM.mutRef (Loc.svar i var) slot.value)
    | .captured => Except.ok (MaybeMutM.im slot.value sp .captured)
  | Option.none =>
    match s.base with
    | some lib =>
      match libGet lib.global var with
      | some v => Except.ok (MaybeMutM.im v sp .const)
      | Option.none => Except.error ⟨sp, unknownVariable var⟩
    | Option.none => Except.error ⟨sp, unknownVariable var⟩
where
  lookupFrames : List ScopeM → Nat → Option (Nat × SlotM)
    | [], _ => Option.none
    | sc :: rest, i =>
      match scopeGet sc var with
      | some slot => some (i, slot)
      | Option.none => lookupFrames rest (i + 1)

/-- A control flow event (eval::FlowEvent): break, continue, or return with
an optional explicit value. -/
inductive FlowEvent where
  | brk (span : SpanM)
  | cont (span : SpanM)
  | ret (span : SpanM) (v : Option Value)

/-- The maximum number of loop iterations (eval::MAX_ITERATIONS). -/
def MAX_ITERATIONS : Nat := 10000

/-- The maximum function call depth (eval::MAX_CALL_DEPTH). -/
def MAX_CALL_DEPTH : Nat := 64

/-- The maximum number of traced values (Tracer::MAX). -/
def TRACER_MAX : Nat := 10

/-- The combined mutable state of an evaluation: the scope stack and the
VM's flow event, call depth and tracer (Vm plus the Scopes passed alongside
it; both are `&mut` in the source and survive error propagation). -/
structure St where
  scopes : ScopesM
  flow : Option FlowEvent
  depth : Nat
  traced : Option SpanM
  traceVals : List Value

/-- The size of the stack of entered scopes. -/
def St.stackLen (st : St) : Nat := st.scopes.scopes.length

/-- Enter a scope on the state's scope stack. -/
def St.enterSc (st : St) : St := { st with scopes := st.scopes.enter }

/-- Exit the topmost scope on the state's scope stack. -/
def St.exitSc (st : St) : St := { st with scopes := st.scopes.exit }

/-- Record a value at the traced span (Tracer::trace, guarded by the traced
span comparison done at each expression evaluation): at most TRACER_MAX
values are kept. -/
def St.traceIf (st : St) (sp : SpanM) (v : Value) : St :=
  if st.traced = some sp then
    if st.traceVals.length < TRACER_MAX then
      { st with traceVals := st.traceVals ++ [v] }
    else st
  else st

/-- Define a variable in the current top scope (Vm::define): traces the value
when the identifier's span is the traced span, then binds it normally. -/
def St.defineVar (st : St) (sp : SpanM) (name : String) (v : Value) : St :=
  let st1 := st.traceIf sp v
  { st1 with
    scopes := { st1.scopes with
      top := scopeInsert st1.scopes.top name ⟨v, .normal⟩ } }

/-- Set the flow event only when none is pending (the guard used by
LoopBreak::eval, LoopContinue::eval and FuncReturn::eval). -/
def St.raiseFlow (st : St) (ev : FlowEvent) : St :=
  if st.flow.isNone then { st with flow := some ev } else st

/-- The outcome of one embedded evaluation step: a value, a source error, or
exhaustion of the step budget (an artifact of the embedding; the source
recurses without fuel). -/
inductive EvalResult (α : Type) where
  | val (a : α)
  | err (e : SErr)
  | nofuel

/-- Whether a result is a successful value. -/
def EvalResult.isVal {α : Type} : EvalResult α → Bool
  | .val _ => true
  | _ => false

/-- The binary operators of the embedded fragment (ast::BinOp restricted to
the operators the claims exercise; all of them are dispatched through
Binary::apply in the source). -/
inductive BinOp where
  | add
  | and
  | or
deriving DecidableEq, Repr

/-- The embedded expression language: the subset of ast::Expr needed by the
claims, each node carrying its span. -/
inductive Expr where
  | ident (sp : SpanM) (name : String)
  | mathIdent (sp : SpanM) (name : String)
  | litNone (sp : SpanM)
  | litBool (sp : SpanM) (b : Bool)
  | litInt (sp : SpanM) (i : Int)
  | litStr (sp : SpanM) (s : String)
  | paren (sp : SpanM) (inner : Expr)
  | codeBlock (sp : SpanM) (body : List Expr)
  | fieldAccess (sp : SpanM) (target : Expr) (field : String)
  | funcCall (sp : SpanM) (callee : Expr) (args : List Expr)
  | binary (sp : SpanM) (op : BinOp) (lhs rhs : Expr)
  | letBind (sp : SpanM) (name : String) (init : Option Expr)
  | whileLoop (sp : SpanM) (cond body : Expr)
  | forLoop (sp : SpanM) (var : String) (iter body : Expr)
  | breakE (sp : SpanM)
  | continueE (sp : SpanM)
  | returnE (sp : SpanM) (body : Option Expr)

/-- The span of an expression (AstNode::span). -/
def Expr.span : Expr → SpanM
  | .ident sp _ => sp
  | .mathIdent sp _ => sp
  | .litNone sp => sp
  | .litBool sp _ => sp
  | .litInt sp _ => sp
  | .litStr sp _ => sp
  | .paren sp _ => sp
  | .codeBlock sp _ => sp
  | .fieldAccess sp _ _ => sp
  | .funcCall sp _ _ => sp
  | .binary sp _ _ _ => sp
  | .letBind sp _ _ => sp
  | .whileLoop sp _ _ => sp
  | .forLoop sp _ _ _ => sp
  | .breakE sp => sp
  | .continueE sp => sp
  | .returnE sp _ => sp

mutual

/-- Whether the expression always evaluates to the same value (eval
is_invariant): identifiers and math identifiers are variant, a field access
is as invariant as its target, a function call as its callee and arguments,
and any other node is invariant when all its untyped children are. The
untyped children of a let binding and of a for loop include the binding
identifier itself (an Ident node, which the source's `expr.cast()` turns
into the variant `ast::Expr::Ident` case), so every let binding and every
for loop with an identifier pattern - the only pattern shape of this
fragment - is variant. -/
def isInvariant : Expr → Bool
  | .ident _ _ => false
  | .mathIdent _ _ => false
  | .fieldAccess _ t _ => isInvariant t
  | .funcCall _ c args => isInvariant c && isInvariantL args
  | .litNone _ => true
  | .litBool _ _ => true
  | .litInt _ _ => true
  | .litStr _ _ => true
  | .paren _ e => isInvariant e
  | .codeBlock _ body => isInvariantL body
  | .binary _ _ l r => isInvariant l && isInvariant r
  | .letBind _ _ _ => false
  | .whileLoop _ c b => isInvariant c && isInvariant b
  | .forLoop _ _ _ _ => false
  | .breakE _ => true
  | .continueE _ => true
  | .returnE _ Option.none => true
  | .returnE _ (some e) => isInvariant e

/-- All expressions in the list are invariant (children().all). -/
def isInvariantL : List Expr → Bool
  | [] => true
  | e :: rest => isInvariant e && isInvariantL rest

end

mutual

/-- Whether the expression contains a break or return (eval can_diverge):
the node's own kind is Break or Return, or any child diverges. -/
def canDiverge : Expr → Bool
  | .breakE _ => true
  | .returnE _ _ => true
  | .paren _ e => canDiverge e
  | .codeBlock _ body => canDivergeL body
  | .fieldAccess _ t _ => canDiverge t
  | .funcCall _ c args => canDiverge c || canDivergeL args
  | .binary _ _ l r => canDiverge l || canDiverge r
  | .letBind _ _ (some e) => canDiverge e
  | .whileLoop _ c b => canDiverge c || canDiverge b
  | .forLoop _ _ it b => canDiverge it || canDiverge b
  | _ => false

/-- Some expression in the list diverges (children().any). -/
def canDivergeL : List Expr → Bool
  | [] => false
  | e :: rest => canDiverge e || canDivergeL rest

end

/-- The `if let ast::Expr::FieldAccess(access) = callee` test of
FuncCall::eval_maybe_mut, as a destructor. -/
def asFieldAccess : Expr → Option (SpanM × Expr × String)
  | .fieldAccess sp t fld => some (sp, t, fld)
  | _ => Option.none

/-- Whether the syntactic callee is rooted in a math identifier (eval
in_math): a math identifier, or a field access whose target is. -/
def inMath : Expr → Bool
  | .mathIdent _ _ => true
  | .fieldAccess _ t _ => inMath t
  | _ => false

/-- The short-circuit test of Binary::apply: the operator is `and` and the
left value is the boolean false, or the operator is `or` and the left value
is the boolean true. -/
def shortCircuits : BinOp → Value → Bool
  | .and, Value.bool false => true
  | .or, Value.bool true => true
  | _, _ => false

/-- Modelled from the spec: ops::join (ops.rs is not in the sources). None is
a join identity; strings, arrays and content concatenate; anything else is an
error. -/
def joinV : Value → Value → Except String Value
  | Value.none, v => Except.ok v
  | v, Value.none => Except.ok v
  | Value.str a, Value.str b => Except.ok (Value.str (a ++ b))
  | Value.array a, Value.array b => Except.ok (Value.array (a ++ b))
  | Value.content a, Value.content b =>
    Except.ok (Value.content (ContentM.seqC [a, b]))
  | a, b =>
    Except.error ("cannot join " ++ typeNameOf a ++ " with " ++ typeNameOf b)

/-- Modelled from the spec: the non-short-circuit binary operators (ops.rs is
not in the sources); add concatenates numbers, strings and arrays, and the
logical operators require booleans. -/
def applyOp : BinOp → Value → Value → Except String Value
  | .add, Value.int a, Value.int b => Except.ok (Value.int (a + b))
  | .add, Value.str a, Value.str b => Except.ok (Value.str (a ++ b))
  | .add, Value.array a, Value.array b => Except.ok (Value.array (a ++ b))
  | .add, a, b =>
    Except.error ("cannot add " ++ typeNameOf a ++ " and " ++ typeNameOf b)
  | .and, Value.bool a, Value.bool b => Except.ok (Value.bool (a && b))
  | .and, a, b =>
    Except.error ("cannot apply 'and' to " ++ typeNameOf a ++ " and " ++ typeNameOf b)
  | .or, Value.bool a, Value.bool b => Except.ok (Value.bool (a || b))
  | .or, a, b =>
    Except.error ("cannot apply 'or' to " ++ typeNameOf a ++ " and " ++ typeNameOf b)

/-- Modelled from the spec: Value::cast to bool (cast.rs is not in the
sources). -/
def castBool : Value → Except String Bool
  | Value.bool b => Except.ok b
  | v => Except.error ("expected boolean, found " ++ typeNameOf v)

/-- Lookup in a dictionary's entries. -/
def dictGet (xs : List (String × Value)) (key : String) : Option Value :=
  match xs with
  | [] => Option.none
  | (k, v) :: rest => if k = key then some v else dictGet rest key

/-- Modelled from the spec: Value::field (value.rs is not in the sources);
dictionaries expose their entries as fields, other types have none. -/
def fieldOf : Value → String → Except String Value
  | Value.dict xs, key =>
    match dictGet xs key with
    | some v => Except.ok v
    | Option.none => Except.error ("dictionary does not contain key " ++ key)
  | v, _ => Except.error ("cannot access fields on type " ++ typeNameOf v)

/-- Modelled from the spec: the display coercion of a value to content
(§4.1.1 of the spec; value.rs is not in the sources). -/
def displayV : Value → ContentM
  | Value.content c => c
  | Value.str s => ContentM.text s
  | Value.int i => ContentM.text (toString i)
  | Value.bool b => ContentM.text (toString b)
  | Value.symbol c => ContentM.text (String.mk [c])
  | Value.none => ContentM.text ""
  | v => ContentM.text (typeNameOf v)

/-- Modelled from the spec: Symbol::combining_accent (symbol.rs is not in the
sources); some single-codepoint symbols have a known combining accent. -/
def combiningAccent (c : Char) : Option Char :=
  if c = '^' then some c else Option.none

/-- Modelled from the spec: the method table consulted before fields for
function values (methods.rs is not in the sources); functions expose `with`
and `where`, symbols and modules have no entries. -/
def methodsOn (tn : String) : List String :=
  if tn = "function" then ["with", "where"] else []

/-- Modelled from the spec: methods::call (methods.rs is not in the sources);
a method call receives the maybe-mut target and may return a mutable
reference into it; `at` on a mutable dictionary is the representative such
method. -/
def methodsCall (target : MaybeMutM) (field : String) (avs : List Value) :
    Except String MaybeMutM :=
  match target, field, avs with
  | .mutRef loc (Value.dict d), "at", [Value.str k] =>
    match dictGet d k with
    | some v => Except.ok (MaybeMutM.mutRef (Loc.dentry loc k) v)
    | Option.none => Except.error ("dictionary does not contain key " ++ k)
  | t, f, _ =>
    Except.error ("type " ++ typeNameOf t.derefM ++ " has no method " ++ f)

/-- Whether the value is a symbol, module or function (the exception list of
the method-dispatch condition in FuncCall::eval_maybe_mut). -/
def isSymModFunc : Value → Bool
  | Value.symbol _ => true
  | Value.module _ => true
  | Value.func _ => true
  | _ => false

/-- Modelled from the spec: invocation of a function value (func.rs is not in
the sources); a tiny native table suffices for the claims, which never
inspect call results beyond their temporary wrapping. -/
def callFunc (name : String) (avs : List Value) : Except String Value :=
  match name, avs with
  | "len", [Value.array xs] => Except.ok (Value.int (Int.ofNat xs.length))
  | "len", [Value.str s] => Except.ok (Value.int (Int.ofNat s.length))
  | n, _ => Except.error ("unknown function: " ++ n)

/-- Comma-join displayed arguments (the loop of eval_non_func_in_math). -/
def commaJoined : List Value → List ContentM
  | [] => []
  | [v] => [displayV v]
  | v :: rest => displayV v :: ContentM.text "," :: commaJoined rest

/-- Handling of a function call of a non-function in math
(FuncCall::eval_non_func_in_math): a combining-accent symbol consumes the
first argument as its base; anything else renders as the callee followed by
the parenthesized, comma-joined arguments. -/
def evalNonFuncInMathV (callee : Value) (avs : List Value) :
    Except String Value :=
  match callee with
  | Value.symbol c =>
    match combiningAccent c with
    | some accent =>
      match avs with
      | [base] => Except.ok (Value.content (ContentM.accent (displayV base) accent))
      | [] => Except.error "missing argument: base"
      | _ => Except.error "unexpected argument"
    | Option.none => fallback
  | _ => fallback
where
  fallback : Except String Value :=
    Except.ok (Value.content (ContentM.seqC
      [displayV callee,
       ContentM.delimited (ContentM.text "(")
         (ContentM.seqC (commaJoined avs)) (ContentM.text ")")]))

/-- The tail of FuncCall::eval_maybe_mut once the callee value and evaluated
arguments are known: math special-casing for non-functions, then the cast to
a function and its invocation, the result wrapped as a temporary. -/
def finishCall (inM : Bool) (calleeSpan sp : SpanM) (cv : Value)
    (avs : List Value) (st : St) : EvalResult MaybeMutM × St :=
  if inM && !(match cv with | Value.func _ => true | _ => false) then
    match evalNonFuncInMathV cv avs with
    | Except.ok v => (.val (MaybeMutM.temp v sp), st)
    | Except.error m => (.err ⟨sp, m⟩, st)
  else
    match cv with
    | Value.func fname =>
      match callFunc fname avs with
      | Except.ok v => (.val (MaybeMutM.temp v sp), st)
      | Except.error m => (.err ⟨sp, m⟩, st)
    | v => (.err ⟨calleeSpan, "expected function, found " ++ typeNameOf v⟩, st)

/-- The admissible iterables of a for loop with an identifier pattern
(ForLoop::eval): strings iterate by grapheme cluster, dictionaries by pairs,
arrays by value; anything else cannot be looped over. The grapheme
segmentation is modelled from the spec with each scalar its own cluster. -/
def iterValues : Value → Except String (List Value)
  | Value.str s => Except.ok (s.data.map (fun c => Value.str (String.mk [c])))
  | Value.dict d =>
    Except.ok (d.map (fun kv => Value.array [Value.str kv.1, kv.2]))
  | Value.array xs => Except.ok xs
  | v => Except.error ("cannot loop over " ++ typeNameOf v)

mutual

/-- Evaluate an expression to a value (the Eval impls of mod.rs, dispatched
by Expr::eval). Each arm mirrors the corresponding impl; the dispatcher's
postlude span-annotates the value (a no-op on our value model) and traces it
when the node's span is the traced span. The Nat argument is step fuel, an
artifact of the embedding. -/
def evalE : Nat → Expr → St → EvalResult Value × St
  | 0, _, st => (.nofuel, st)
  | Nat.succ f, e, st =>
    let sp := e.span
    let step : EvalResult Value × St :=
      match e with
      | .ident _ n =>
        match st.scopes.get n with
        | Except.ok v => (.val v, st)
        | Except.error m => (.err ⟨sp, m⟩, st)
      | .mathIdent _ n =>
        match st.scopes.getInMath n with
        | Except.ok v => (.val v, st)
        | Except.error m => (.err ⟨sp, m⟩, st)
      | .litNone _ => (.val Value.none, st)
      | .litBool _ b => (.val (Value.bool b), st)
      | .litInt _ i => (.val (Value.int i), st)
      | .litStr _ s => (.val (Value.str s), st)
      | .paren _ inner => evalE f inner st
      | .codeBlock _ body =>
        let stE := st.enterSc
        let saved := stE.flow
        let st2 := { stE with flow := Option.none }
        match evalCodeLoop f body Value.none st2 with
        | (.val v, st3) =>
          let st4 := if saved.isSome then { st3 with flow := saved } else st3
          (.val v, st4.exitSc)
        | (r, st3) => (r, st3)
      | .fieldAccess _ t fld =>
        match evalE f t st with
        | (.val v, st1) =>
          match fieldOf v fld with
          | Except.ok fv => (.val fv, st1)
          | Except.error m => (.err ⟨sp, m⟩, st1)
        | (.err er, st1) => (.err er, st1)
        | (.nofuel, st1) => (.nofuel, st1)
      | .funcCall _ c args =>
        match evalFuncCallMM f sp c args st with
        | (.val m, st1) => (.val m.takeM, st1)
        | (.err er, st1) => (.err er, st1)
        | (.nofuel, st1) => (.nofuel, st1)
      | .binary _ op l r =>
        match evalE f l st with
        | (.val lv, st1) =>
          if shortCircuits op lv then (.val lv, st1)
          else
            match evalE f r st1 with
            | (.val rv, st2) =>
              match applyOp op lv rv with
              | Except.ok v => (.val v, st2)
              | Except.error m => (.err ⟨sp, m⟩, st2)
            | (.err er, st2) => (.err er, st2)
            | (.nofuel, st2) => (.nofuel, st2)
        | (.err er, st1) => (.err er, st1)
        | (.nofuel, st1) => (.nofuel, st1)
      | .letBind _ name init =>
        match init with
        | some ie =>
          match evalE f ie st with
          | (.val v, st1) => (.val Value.none, st1.defineVar sp name v)
          | (.err er, st1) => (.err er, st1)
          | (.nofuel, st1) => (.nofuel, st1)
        | Option.none => (.val Value.none, st.defineVar sp name Value.none)
      | .whileLoop _ c b =>
        let saved := st.flow
        let st1 := { st with flow := Option.none }
        match whileIter f sp c b 0 Value.none st1 with
        | (.val v, st2) =>
          (.val v, if saved.isSome then { st2 with flow := saved } else st2)
        | (r, st2) => (r, st2)
      | .forLoop _ var it b =>
        let saved := st.flow
        let st1 := { st with flow := Option.none }
        match evalE f it st1 with
        | (.val itv, st2) =>
          match iterValues itv with
          | Except.ok vals =>
            let st3 := st2.enterSc
            match forIter f sp var b vals Value.none st3 with
            | (.val out, st4) =>
              let st5 := st4.exitSc
              (.val out,
                if saved.isSome then { st5 with flow := saved } else st5)
            | (r, st4) => (r, st4)
          | Except.error m => (.err ⟨it.span, m⟩, st2)
        | (.err er, st2) => (.err er, st2)
        | (.nofuel, st2) => (.nofuel, st2)
      | .breakE _ => (.val Value.none, st.raiseFlow (.brk sp))
      | .continueE _ => (.val Value.none, st.raiseFlow (.cont sp))
      | .returnE _ body =>
        match body with
        | some be =>
          match evalE f be st with
          | (.val v, st1) => (.val Value.none, st1.raiseFlow (.ret sp (some v)))
          | (.err er, st1) => (.err er, st1)
          | (.nofuel, st1) => (.nofuel, st1)
        | Option.none => (.val Value.none, st.raiseFlow (.ret sp Option.none))
    match step with
    | (.val v, st1) => (.val v, st1.traceIf sp v)
    | other => other
termination_by structural n => n

/-- Evaluate an expression to a maybe-mutable location (Expr::eval_maybe_mut).
Only identifiers, parenthesized expressions, field accesses and function
calls dispatch to their own eval_maybe_mut; every other shape evaluates to a
value wrapped as a temporary at the expression's span. The postlude re-spans
the result and traces its dereferenced value. -/
def evalMaybeMutE : Nat → Expr → St → EvalResult MaybeMutM × St
  | 0, _, st => (.nofuel, st)
  | Nat.succ f, e, st =>
    let sp := e.span
    let step : EvalResult MaybeMutM × St :=
      match e with
      | .ident _ n =>
        match st.scopes.getMaybeMut n sp with
        | Except.ok m => (.val m, st)
        | Except.error er => (.err er, st)
      | .paren _ inner => evalMaybeMutE f inner st
      | .fieldAccess _ t fld => evalFieldAccessMM f sp t fld st
      | .funcCall _ c args => evalFuncCallMM f sp c args st
      | other =>
        match evalE f other st with
        | (.val v, st1) => (.val (MaybeMutM.temp v sp), st1)
        | (.err er, st1) => (.err er, st1)
        | (.nofuel, st1) => (.nofuel, st1)
    match step with
    | (.val m, st1) =>
      let m1 := m.mmSpanned sp
      (.val m1, st1.traceIf sp m1.derefM)
    | other => other
termination_by structural n => n

/-- FieldAccess::eval_maybe_mut: dictionaries are the only values with
mutable fields; a mutable dictionary target yields a mutable entry location,
every other target has its field read and wrapped as a temporary. -/
def evalFieldAccessMM : Nat → SpanM → Expr → String → St →
    EvalResult MaybeMutM × St
  | 0, _, _, _, st => (.nofuel, st)
  | Nat.succ f, sp, t, fld, st =>
    match evalMaybeMutE f t st with
    | (.val tv, st1) =>
      match tv with
      | .mutRef loc (Value.dict d) =>
        match dictGet d fld with
        | some v => (.val (MaybeMutM.mutRef (Loc.dentry loc fld) v), st1)
        | Option.none =>
          (.err ⟨sp, "dictionary does not contain key " ++ fld⟩, st1)
      | _ =>
        match fieldOf tv.derefM fld with
        | Except.ok v => (.val (MaybeMutM.temp v sp), st1)
        | Except.error m => (.err ⟨sp, m⟩, st1)
    | (.err er, st1) => (.err er, st1)
    | (.nofuel, st1) => (.nofuel, st1)
termination_by structural n => n

/-- FuncCall::eval_maybe_mut: after the call-depth check, a field-access
callee is tried as a method call (functions prefer their own methods over
fields; symbols and modules always use fields); otherwise callee and
arguments are evaluated, math non-function calls are special-cased, and a
plain invocation is wrapped as a temporary. -/
def evalFuncCallMM : Nat → SpanM → Expr → List Expr → St →
    EvalResult MaybeMutM × St
  | 0, _, _, _, st => (.nofuel, st)
  | Nat.succ f, sp, c, args, st =>
  if MAX_CALL_DEPTH ≤ st.depth then
    (.err ⟨sp, "maximum function call depth exceeded"⟩, st)
  else
    let inM := inMath c
    match asFieldAccess c with
    | some (_, t, fld) =>
      match evalArgsL f args st with
      | (.val avs, st1) =>
        match evalMaybeMutE f t st1 with
        | (.val target, st2) =>
          if !(isSymModFunc target.derefM)
              || (methodsOn (typeNameOf target.derefM)).contains fld then
            match methodsCall target fld avs with
            | Except.ok m => (.val m, st2)
            | Except.error msg => (.err ⟨sp, msg⟩, st2)
          else
            match fieldOf target.derefM fld with
            | Except.ok cv => finishCall inM c.span sp cv avs st2
            | Except.error m => (.err ⟨sp, m⟩, st2)
        | (.err er, st2) => (.err er, st2)
        | (.nofuel, st2) => (.nofuel, st2)
      | (.err er, st1) => (.err er, st1)
      | (.nofuel, st1) => (.nofuel, st1)
    | Option.none =>
      match evalE f c st with
      | (.val cv, st1) =>
        match evalArgsL f args st1 with
        | (.val avs, st2) => finishCall inM c.span sp cv avs st2
        | (.err er, st2) => (.err er, st2)
        | (.nofuel, st2) => (.nofuel, st2)
      | (.err er, st1) => (.err er, st1)
      | (.nofuel, st1) => (.nofuel, st1)
termination_by structural n => n

/-- Args::eval restricted to positional arguments, evaluated left to
right. -/
def evalArgsL : Nat → List Expr → St → EvalResult (List Value) × St
  | 0, _, st => (.nofuel, st)
  | Nat.succ _, [], st => (.val [], st)
  | Nat.succ f, a :: rest, st =>
    match evalE f a st with
    | (.val v, st1) =>
      match evalArgsL f rest st1 with
      | (.val vs, st2) => (.val (v :: vs), st2)
      | (.err er, st2) => (.err er, st2)
      | (.nofuel, st2) => (.nofuel, st2)
    | (.err er, st1) => (.err er, st1)
    | (.nofuel, st1) => (.nofuel, st1)
termination_by structural n => n

/-- The statement loop of eval_code: each expression's value is joined into
the running output at the expression's span, and a pending flow event stops
the iteration (set and show rules do not occur in the embedded fragment). -/
def evalCodeLoop : Nat → List Expr → Value → St → EvalResult Value × St
  | 0, _, _, st => (.nofuel, st)
  | Nat.succ _, [], out, st => (.val out, st)
  | Nat.succ f, e :: rest, out, st =>
    match evalE f e st with
    | (.val v, st1) =>
      match joinV out v with
      | Except.ok out1 =>
        if st1.flow.isSome then (.val out1, st1)
        else evalCodeLoop f rest out1 st1
      | Except.error m => (.err ⟨e.span, m⟩, st1)
    | (.err er, st1) => (.err er, st1)
    | (.nofuel, st1) => (.nofuel, st1)
termination_by structural n => n

/-- The iteration head of WhileLoop::eval: evaluate and cast the condition;
when it holds, reject an invariant condition over a non-diverging body on the
first iteration, fail once the iteration count reaches MAX_ITERATIONS, and
otherwise run the body step. -/
def whileIter (fuel : Nat) (sp : SpanM) (c b : Expr) (i : Nat) (out : Value)
    (st : St) : EvalResult Value × St :=
  match fuel with
  | 0 => (.nofuel, st)
  | Nat.succ f =>
    match evalE f c st with
    | (.val cv, st1) =>
      match castBool cv with
      | Except.ok true =>
        if i == 0 && isInvariant c && !canDiverge b then
          (.err ⟨c.span, "condition is always true"⟩, st1)
        else if MAX_ITERATIONS ≤ i then
          (.err ⟨sp, "loop seems to be infinite"⟩, st1)
        else whileGo f sp c b i out st1
      | Except.ok false => (.val out, st1)
      | Except.error m => (.err ⟨c.span, m⟩, st1)
    | (.err er, st1) => (.err er, st1)
    | (.nofuel, st1) => (.nofuel, st1)
termination_by structural fuel

/-- One body step of WhileLoop::eval: evaluate the body, join it into the
output at the body's span, then observe the flow event — break clears and
stops, continue clears and iterates, return stops with the event left set. -/
def whileGo (fuel : Nat) (sp : SpanM) (c b : Expr) (i : Nat) (out : Value)
    (st : St) : EvalResult Value × St :=
  match fuel with
  | 0 => (.nofuel, st)
  | Nat.succ f =>
    match evalE f b st with
    | (.val v, st1) =>
      match joinV out v with
      | Except.ok out1 =>
        match st1.flow with
        | some (.brk _) => (.val out1, { st1 with flow := Option.none })
        | some (.cont _) =>
          whileIter f sp c b (i + 1) out1 { st1 with flow := Option.none }
        | some (.ret _ _) => (.val out1, st1)
        | Option.none => whileIter f sp c b (i + 1) out1 st1
      | Except.error m => (.err ⟨b.span, m⟩, st1)
    | (.err er, st1) => (.err er, st1)
    | (.nofuel, st1) => (.nofuel, st1)
termination_by structural fuel

/-- The body loop of ForLoop::eval with an identifier pattern: each loop
value is bound in the entered scope, the body is evaluated and joined at its
span, and the flow event is observed exactly as in while loops. -/
def forIter (fuel : Nat) (patSp : SpanM) (var : String) (b : Expr)
    (vals : List Value) (out : Value) (st : St) : EvalResult Value × St :=
  match fuel with
  | 0 => (.nofuel, st)
  | Nat.succ f =>
    match vals with
    | [] => (.val out, st)
    | v :: rest =>
      let st0 := st.defineVar patSp var v
      match evalE f b st0 with
      | (.val bv, st1) =>
        match joinV out bv with
        | Except.ok out1 =>
          match st1.flow with
          | some (.brk _) => (.val out1, { st1 with flow := Option.none })
          | some (.cont _) =>
            forIter f patSp var b rest out1 { st1 with flow := Option.none }
          | some (.ret _ _) => (.val out1, st1)
          | Option.none => forIter f patSp var b rest out1 st1
        | Except.error m => (.err ⟨b.span, m⟩, st1)
      | (.err er, st1) => (.err er, st1)
      | (.nofuel, st1) => (.nofuel, st1)
termination_by structural fuel

end

/-- A destructuring binding (ast::DestructuringKind) with identifier leaves:
a normal binding, a sink (with or without an identifier), a named binding, or
a placeholder. -/
inductive DKind where
  | normal (name : String)
  | sink (name : Option String)
  | named (name : String)
  | placeholder
deriving DecidableEq, Repr

/-- The loop of Pattern::destruct_array over the bindings, with the array
index threaded through. `len` is the array's length and `count` the total
number of bindings (destruct.bindings().count()). The callback that the
source applies to each matched binding is recorded as an ordered list of
(name, value) pairs, and a raised error ends the loop with the bindings made
so far kept (the scopes are `&mut` in the source). -/
def destructLoop (len count : Nat) (xs : List Value) :
    List DKind → Nat → List (String × Value) × Option String
  | [], i =>
    if i < len then ([], some "too many elements to destructure")
    else ([], Option.none)
  | DKind.normal name :: rest, i =>
    match xs[i]? with
    | some v =>
      let r := destructLoop len count xs rest (i + 1)
      ((name, v) :: r.1, r.2)
    | Option.none => ([], some "not enough elements to destructure")
  | DKind.sink oname :: rest, i =>
    if count ≤ 1 + len then
      let s := 1 + len - count
      if i + s ≤ len then
        let slice := (xs.drop i).take s
        let r := destructLoop len count xs rest (i + s)
        match oname with
        | some nm => ((nm, Value.array slice) :: r.1, r.2)
        | Option.none => r
      else ([], some "not enough elements to destructure")
    else ([], some "not enough elements to destructure")
  | DKind.named _ :: _, _ =>
    ([], some "cannot destructure named elements from an array")
  | DKind.placeholder :: rest, i =>
    if i < len then destructLoop len count xs rest (i + 1)
    else ([], some "not enough elements to destructure")

/-- Pattern::destruct_array: run the binding loop from index 0 with the full
binding count; after the loop, leftover elements are an error. -/
def destructArray (bindings : List DKind) (xs : List Value) :
    List (String × Value) × Option String :=
  destructLoop xs.length bindings.length xs bindings 0

/-- A package manifest (file.rs PackageManifest, the fields the import path
uses). -/
structure ManifestM where
  name : String
  ns : String
  version : String
  entrypoint : String
deriving DecidableEq, Repr

/-- Modelled from the spec: raw file bytes, either a well-formed manifest or
garbage that fails to parse. -/
inductive BytesM where
  | manifestBytes (m : ManifestM)
  | garbage
deriving DecidableEq, Repr

/-- Modelled from the spec: PackageManifest::parse. -/
def parseManifest : BytesM → Except String ManifestM
  | BytesM.manifestBytes m => Except.ok m
  | BytesM.garbage => Except.error "package manifest is malformed"

/-- Modelled from the spec: PackageManifest::validate checks that the
manifest's name, namespace and version match the requested spec. -/
def validateManifest (m : ManifestM) (spec : PackageSpecM) :
    Except String Unit :=
  if m.name = spec.name ∧ m.ns = spec.ns ∧ m.version = spec.version then
    Except.ok ()
  else Except.error "package manifest does not match the package spec"

/-- The directory part of a path: everything before the last slash. -/
def dirOf (p : String) : String :=
  String.mk (((p.data.reverse.dropWhile (fun c => c ≠ '/')).drop 1).reverse)

/-- Modelled from the spec: FileId::join resolves a path relative to the
file's directory within the same package (file.rs is not in the sources). -/
def joinId (id : FileIdM) (path : String) : Except String FileIdM :=
  Except.ok ⟨id.pkg, dirOf id.path ++ "/" ++ path⟩

/-- Modelled from the spec: parsing of a `@namespace/name:version` package
spec string (file.rs is not in the sources). -/
def parsePackageSpec (s : String) : Except String PackageSpecM :=
  match s.drop 1 |>.splitOn "/" with
  | [ns, rest] =>
    match rest.splitOn ":" with
    | [name, version] => Except.ok ⟨ns, name, version⟩
    | _ => Except.error "malformed package spec"
  | _ => Except.error "malformed package spec"

/-- The world capability consumed by the import path: which file ids have a
source, which have raw bytes, and the module that recursively evaluating a
source yields when no cycle blocks it (abstracting the recursive call to
eval, whose own body is the memoized entry point). -/
structure WorldM where
  hasSource : FileIdM → Bool
  fileData : FileIdM → Option BytesM
  evalModule : FileIdM → Except String ModuleM

/-- An observable step of the import path, recorded in order: a route cycle
check, a source load, a raw file load, or a recursive evaluation. -/
inductive Effect where
  | checkedRoute (id : FileIdM)
  | readSource (id : FileIdM)
  | readFile (id : FileIdM)
  | calledEval (id : FileIdM)
deriving DecidableEq, Repr

/-- The outcome of an import: a module, a user-visible error, or a panic
(an internal precondition violation, not a user-visible error). -/
inductive ImpOutcome where
  | ok (m : ModuleM)
  | userErr (span : SpanM) (msg : String)
  | panicked
deriving DecidableEq, Repr

/-- The route of file ids (eval::Route): the linked list is modelled as the
list of ids it contains. -/
abbrev RouteM := List FileIdM

/-- Route::contains: the id is the link's own id or is contained in the
outer route. -/
def routeContains (r : RouteM) (id : FileIdM) : Bool :=
  match r with
  | [] => false
  | x :: rest => x = id || routeContains rest id

/-- The top-level eval entry point's treatment of cycles (eval lines 93-97):
a route that already contains the source's id is a precondition violation
and panics; otherwise evaluation proceeds (abstracted by the world). -/
def evalSrc (w : WorldM) (route : RouteM) (id : FileIdM) (span : SpanM) :
    ImpOutcome × List Effect :=
  if routeContains route id then (ImpOutcome.panicked, [Effect.calledEval id])
  else
    match w.evalModule id with
    | Except.ok m => (ImpOutcome.ok m, [Effect.calledEval id])
    | Except.error m => (ImpOutcome.userErr span m, [Effect.calledEval id])

/-- import_file: join the path onto the current location, load the source,
check the route for the source's id (failing with "cyclic import"), and only
then evaluate the file. -/
def importFile (w : WorldM) (location : FileIdM) (route : RouteM)
    (path : String) (span : SpanM) : ImpOutcome × List Effect :=
  match joinId location path with
  | Except.error m => (ImpOutcome.userErr span m, [])
  | Except.ok id =>
    if w.hasSource id then
      if routeContains route id then
        (ImpOutcome.userErr span "cyclic import",
         [Effect.readSource id, Effect.checkedRoute id])
      else
        let (r, effs) := evalSrc w route id span
        (r, [Effect.readSource id, Effect.checkedRoute id] ++ effs)
    else (ImpOutcome.userErr span "file not found", [Effect.readSource id])

/-- import_package: load and parse the package manifest, validate it against
the spec, resolve the entrypoint, load its source, and evaluate it. No route
check is performed on this path. -/
def importPackage (w : WorldM) (route : RouteM) (spec : PackageSpecM)
    (span : SpanM) : ImpOutcome × List Effect :=
  let manifestId : FileIdM := ⟨some spec, "/typst.toml"⟩
  match w.fileData manifestId with
  | Option.none =>
    (ImpOutcome.userErr span "file not found", [Effect.readFile manifestId])
  | some bytes =>
    match parseManifest bytes with
    | Except.error m =>
      (ImpOutcome.userErr span m, [Effect.readFile manifestId])
    | Except.ok manifest =>
      match validateManifest manifest spec with
      | Except.error m =>
        (ImpOutcome.userErr span m, [Effect.readFile manifestId])
      | Except.ok _ =>
        match joinId manifestId manifest.entrypoint with
        | Except.error m =>
          (ImpOutcome.userErr span m, [Effect.readFile manifestId])
        | Except.ok entryId =>
          if w.hasSource entryId then
            let (r, effs) := evalSrc w route entryId span
            (r, [Effect.readFile manifestId, Effect.readSource entryId] ++ effs)
          else
            (ImpOutcome.userErr span "file not found",
             [Effect.readFile manifestId, Effect.readSource entryId])

/-- The import routine shared by ModuleImport and ModuleInclude (the
eval import function): a module value is returned directly with no further work; a string
is a package spec when it starts with '@' and a file path otherwise; any
other value is a type error whose message depends on whether functions are
acceptable sources. -/
def importV (w : WorldM) (location : FileIdM) (route : RouteM)
    (source : Value) (span : SpanM) (acceptFunctions : Bool) :
    ImpOutcome × List Effect :=
  match source with
  | Value.str path =>
    if path.startsWith "@" then
      match parsePackageSpec path with
      | Except.ok spec => importPackage w route spec span
      | Except.error m => (ImpOutcome.userErr span m, [])
    else importFile w location route path span
  | Value.module m => (ImpOutcome.ok m, [])
  | v =>
    if acceptFunctions then
      (ImpOutcome.userErr span
        ("expected path, module or function, found " ++ typeNameOf v), [])
    else
      (ImpOutcome.userErr span
        ("expected path or module, found " ++ typeNameOf v), [])

/-! ## State helper lemmas -/

@[simp]
theorem stackLen_traceIf (st : St) (sp : SpanM) (v : Value) :
    (st.traceIf sp v).stackLen = st.stackLen := by
  unfold St.traceIf St.stackLen
  split <;> [skip; rfl]
  split <;> rfl

@[simp]
theorem flow_traceIf (st : St) (sp : SpanM) (v : Value) :
    (st.traceIf sp v).flow = st.flow := by
  unfold St.traceIf
  split <;> [skip; rfl]
  split <;> rfl

@[simp]
theorem scopes_traceIf (st : St) (sp : SpanM) (v : Value) :
    (st.traceIf sp v).scopes = st.scopes := by
  unfold St.traceIf
  split <;> [skip; rfl]
  split <;> rfl

@[simp]
theorem stackLen_defineVar (st : St) (sp : SpanM) (n : String) (v : Value) :
    (st.defineVar sp n v).stackLen = st.stackLen := by
  unfold St.defineVar St.stackLen
  simp [St.traceIf]
  split <;> [skip; rfl]
  split <;> rfl

@[simp]
theorem stackLen_raiseFlow (st : St) (ev : FlowEvent) :
    (st.raiseFlow ev).stackLen = st.stackLen := by
  unfold St.raiseFlow St.stackLen
  split <;> rfl

@[simp]
theorem flow_raiseFlow (st : St) (ev : FlowEvent) :
    (st.raiseFlow ev).flow = if st.flow.isNone then some ev else st.flow := by
  unfold St.raiseFlow
  split <;> simp_all

@[simp]
theorem stackLen_enterSc (st : St) : st.enterSc.stackLen = st.stackLen + 1 := by
  simp [St.enterSc, St.stackLen, ScopesM.enter]

theorem stackLen_exitSc (st : St) :
    st.exitSc.stackLen = st.stackLen - 1 := by
  unfold St.exitSc St.stackLen ScopesM.exit
  rcases h : st.scopes.scopes with _ | ⟨t, rest⟩ <;> simp [h]

@[simp]
theorem stackLen_setFlow (st : St) (x : Option FlowEvent) :
    St.stackLen { st with flow := x } = st.stackLen := rfl

/-! ## Fixtures used by witnesses and counterexamples -/

/-- The empty scope stack without a base library. -/
def emptyScopes : ScopesM := ⟨[], [], Option.none⟩

/-- An evaluation state with the given top scope, no entered scopes, no base
library, no pending flow event and no tracing. -/
def mkSt (top : List (String × SlotM)) : St :=
  ⟨⟨top, [], Option.none⟩, Option.none, 0, Option.none, []⟩

/-- The state used by most witnesses: empty top scope. -/
def st0 : St := mkSt []

/-- A state binding `x` to the boolean true as a normal slot. -/
def stX : St := mkSt [("x", ⟨Value.bool true, .normal⟩)]

/-! ## String containment -/

/-- The message `msg` contains `pat` as a substring. -/
def ContainsStr (msg pat : String) : Prop :=
  ∃ p q : String, msg = p ++ pat ++ q

/-- The subtraction hint appended by unknown_variable for names containing a
minus sign. -/
def subtractionHint : String :=
  "if you meant to use subtraction, try adding spaces around the minus sign."

theorem strAppendAssoc (a b c : String) : a ++ b ++ c = a ++ (b ++ c) := by
  rcases a with ⟨as⟩
  rcases b with ⟨bs⟩
  rcases c with ⟨cs⟩
  show String.mk (as ++ bs ++ cs) = String.mk (as ++ (bs ++ cs))
  rw [List.append_assoc]

theorem strAppendEmpty (a : String) : a ++ "" = a := by
  rcases a with ⟨as⟩
  show String.mk (as ++ []) = String.mk as
  rw [List.append_nil]

theorem strLenAppend (a b : String) :
    (a ++ b).length = a.length + b.length := by
  rcases a with ⟨as⟩
  rcases b with ⟨bs⟩
  show (String.mk (as ++ bs)).length = (String.mk as).length + (String.mk bs).length
  simp [String.length]

/-! ## C10: module values imported directly -/

/-- C10: for every import or include whose source expression evaluates to a
module value, that module is returned directly: no path resolution, no file,
manifest or source access, no route extension and no cycle check occur (the
effect log is empty), even if the module's file id is already on the current
route. -/
theorem c10_module_source_returned_directly
    (w : WorldM) (location : FileIdM) (route : RouteM) (m : ModuleM)
    (span : SpanM) (acceptFunctions : Bool) :
    importV w location route (Value.module m) span acceptFunctions =
      (ImpOutcome.ok m, []) := rfl

/-! ## C1: cyclic import detection -/

/-- C1 (amended): a file-path import whose resolved id is already on the
route fails with "cyclic import" after loading the source and before any
recursive evaluation; a package import performs no route check - with a
valid manifest whose entrypoint id is already on the route it reaches the
top-level evaluation entry point, whose violated cycle precondition is a
panic, not the user-visible "cyclic import" error. -/
theorem c1_cyclic_import_file_only :
    (∀ (w : WorldM) (location : FileIdM) (route : RouteM) (path : String)
       (span : SpanM) (id : FileIdM),
       joinId location path = Except.ok id →
       w.hasSource id = true →
       routeContains route id = true →
       importFile w location route path span =
         (ImpOutcome.userErr span "cyclic import",
          [Effect.readSource id, Effect.checkedRoute id])) ∧
    (∀ (w : WorldM) (route : RouteM) (spec : PackageSpecM) (span : SpanM)
       (manifest : ManifestM) (entryId : FileIdM),
       w.fileData ⟨some spec, "/typst.toml"⟩ =
         some (BytesM.manifestBytes manifest) →
       validateManifest manifest spec = Except.ok () →
       joinId ⟨some spec, "/typst.toml"⟩ manifest.entrypoint =
         Except.ok entryId →
       w.hasSource entryId = true →
       routeContains route entryId = true →
       importPackage w route spec span =
         (ImpOutcome.panicked,
          [Effect.readFile ⟨some spec, "/typst.toml"⟩,
           Effect.readSource entryId, Effect.calledEval entryId])) := by
  constructor
  · intro w location route path span id hjoin hsrc hroute
    simp [importFile, hjoin, hsrc, hroute]
  · intro w route spec span manifest entryId hfile hvalid hjoin hsrc hroute
    simp [importPackage, hfile, parseManifest, hvalid, hjoin, hsrc,
      evalSrc, hroute]

/-- The package spec of the concrete cyclic-package counterexample. -/
def spec1 : PackageSpecM := ⟨"preview", "pkg", "1.0.0"⟩

/-- The manifest id of the counterexample package. -/
def manifestId1 : FileIdM := ⟨some spec1, "/typst.toml"⟩

/-- The manifest of the counterexample package. -/
def manifest1 : ManifestM := ⟨"pkg", "preview", "1.0.0", "main.typ"⟩

/-- The entrypoint id of the counterexample package. -/
def entry1 : FileIdM := ⟨some spec1, "/main.typ"⟩

/-- A world containing exactly the counterexample package. -/
def world1 : WorldM :=
  ⟨fun id => decide (id = entry1),
   fun id =>
     if id = manifestId1 then some (BytesM.manifestBytes manifest1)
     else Option.none,
   fun _ => Except.ok ⟨"pkg", some entry1⟩⟩

/-- C1 counterexample: importing the package `@preview/pkg:1.0.0` while its
entrypoint is already on the route does not fail with the user-visible
"cyclic import" error; it reaches the recursive evaluation and panics on the
violated top-level cycle precondition. -/
theorem c1_counterexample_package_cycle_panics :
    (importPackage world1 [entry1] spec1 0).1 = ImpOutcome.panicked ∧
    (importPackage world1 [entry1] spec1 0).1 ≠
      ImpOutcome.userErr 0 "cyclic import" := by
  refine ⟨by decide, by decide⟩

/-- A world in which every id has a source (for the file-import witness). -/
def world2 : WorldM :=
  ⟨fun _ => true, fun _ => Option.none, fun _ => Except.ok ⟨"a", Option.none⟩⟩

/-- C1 witness: both halves of the theorem at concrete inputs - a
file-path import whose resolved id sits on the route, and the
counterexample package world. -/
theorem c1_cyclic_import_file_only_witness :
    importFile world2 ⟨Option.none, "/b.typ"⟩ [⟨Option.none, "/a.typ"⟩]
        "a.typ" 3 =
      (ImpOutcome.userErr 3 "cyclic import",
       [Effect.readSource ⟨Option.none, "/a.typ"⟩,
        Effect.checkedRoute ⟨Option.none, "/a.typ"⟩]) ∧
    importPackage world1 [entry1] spec1 0 =
      (ImpOutcome.panicked,
       [Effect.readFile manifestId1, Effect.readSource entry1,
        Effect.calledEval entry1]) := by
  constructor
  · exact c1_cyclic_import_file_only.1 world2 ⟨Option.none, "/b.typ"⟩
      [⟨Option.none, "/a.typ"⟩] "a.typ" 3 ⟨Option.none, "/a.typ"⟩
      rfl rfl (by decide)
  · exact c1_cyclic_import_file_only.2 world1 [entry1] spec1 0 manifest1
      entry1 rfl rfl rfl (by decide) (by decide)

/-! ## C9: unknown-variable error messages -/

theorem get_error_is_unknownVariable (s : ScopesM) (var m : String)
    (h : s.get var = Except.error m) : m = unknownVariable var := by
  unfold ScopesM.get at h
  split at h
  · exact absurd h (by simp)
  · split at h
    · split at h
      · exact absurd h (by simp)
      · simp only [Except.error.injEq] at h
        exact h.symm
    · simp only [Except.error.injEq] at h
      exact h.symm

theorem getMaybeMut_error_is_unknownVariable (s : ScopesM) (var : String)
    (sp : SpanM) (er : SErr)
    (h : s.getMaybeMut var sp = Except.error er) :
    er = ⟨sp, unknownVariable var⟩ := by
  unfold ScopesM.getMaybeMut at h
  split at h
  · split at h <;> exact absurd h (by simp)
  · split at h
    · split at h
      · exact absurd h (by simp)
      · simp only [Except.error.injEq] at h
        exact h.symm
    · simp only [Except.error.injEq] at h
      exact h.symm

theorem unknownVariable_contains_var (var : String) :
    ContainsStr (unknownVariable var) var := by
  unfold unknownVariable
  split
  · exact ⟨"unknown variable: ",
      " - if you meant to use subtraction, try adding spaces around the minus sign.",
      rfl⟩
  · refine ⟨"unknown variable: ", "", ?_⟩
    rw [strAppendEmpty]

theorem unknownVariable_contains_hint (var : String)
    (h : strHasChar var '-' = true) :
    ContainsStr (unknownVariable var) subtractionHint := by
  unfold unknownVariable
  rw [h]
  simp only [if_true]
  refine ⟨"unknown variable: " ++ var ++ " - ", "", ?_⟩
  rw [show (" - if you meant to use subtraction, try adding spaces around the minus sign." : String) = " - " ++ subtractionHint from rfl]
  rw [strAppendEmpty, strAppendAssoc ("unknown variable: " ++ var) " - " subtractionHint]

/-- C9 (amended): a failed variable lookup through Scopes::get or
Scopes::get_maybe_mut produces a message containing the variable name, with
the subtraction hint added when the name contains a minus sign; Scopes::
get_in_math also names the variable but never appends the hint - its
message is the plain "unknown variable: " prefix followed by the name. -/
theorem c9_unknown_variable_messages :
    (∀ (s : ScopesM) (var m : String), s.get var = Except.error m →
       ContainsStr m var ∧
       (strHasChar var '-' = true → ContainsStr m subtractionHint)) ∧
    (∀ (s : ScopesM) (var : String) (sp : SpanM) (er : SErr),
       s.getMaybeMut var sp = Except.error er →
       er.span = sp ∧ ContainsStr er.msg var ∧
       (strHasChar var '-' = true → ContainsStr er.msg subtractionHint)) ∧
    (∀ (s : ScopesM) (var m : String), s.getInMath var = Except.error m →
       m = "unknown variable: " ++ var) := by
  refine ⟨?_, ?_, ?_⟩
  · intro s var m h
    have hm := get_error_is_unknownVariable s var m h
    subst hm
    exact ⟨unknownVariable_contains_var var, unknownVariable_contains_hint var⟩
  · intro s var sp er h
    have hm := getMaybeMut_error_is_unknownVariable s var sp er h
    subst hm
    exact ⟨rfl, unknownVariable_contains_var var,
      unknownVariable_contains_hint var⟩
  · intro s var m h
    unfold ScopesM.getInMath at h
    split at h
    · exact absurd h (by simp)
    · split at h
      · split at h
        · exact absurd h (by simp)
        · simp only [Except.error.injEq] at h
          exact h.symm
      · simp only [Except.error.injEq] at h
        exact h.symm

/-- C9 witness: the theorem applied to a concrete failing lookup of the name
`a-b` through each entry point. -/
theorem c9_unknown_variable_messages_witness :
    ContainsStr (unknownVariable "a-b") "a-b" ∧
    ContainsStr (unknownVariable "a-b") subtractionHint ∧
    "unknown variable: a-b" = "unknown variable: " ++ "a-b" := by
  have h1 := c9_unknown_variable_messages.1 emptyScopes "a-b"
    (unknownVariable "a-b") rfl
  have h3 := c9_unknown_variable_messages.2.2 emptyScopes "a-b"
    "unknown variable: a-b" rfl
  exact ⟨h1.1, h1.2 rfl, h3⟩

/-- C9 counterexample: a failing math-identifier lookup of `a-b` produces
"unknown variable: a-b" with no subtraction hint, although the name contains
a minus sign - the hint is too long to occur in that message. -/
theorem c9_counterexample_math_lookup_lacks_hint :
    ScopesM.getInMath emptyScopes "a-b" =
      Except.error "unknown variable: a-b" ∧
    strHasChar "a-b" '-' = true ∧
    ¬ ContainsStr "unknown variable: a-b" subtractionHint := by
  refine ⟨rfl, rfl, ?_⟩
  rintro ⟨p, q, h⟩
  have hlen := congrArg String.length h
  rw [strLenAppend, strLenAppend] at hlen
  have h1 : String.length "unknown variable: a-b" = 21 := rfl
  have h2 : 21 < subtractionHint.length := by decide
  omega

/-! ## C6: array destructuring -/

theorem destructLoop_normals (count : Nat) (xs : List Value) :
    ∀ (names : List String) (rest : List DKind) (i : Nat),
      i + names.length ≤ xs.length →
      destructLoop xs.length count xs (names.map DKind.normal ++ rest) i =
        (names.zip ((xs.drop i).take names.length) ++
           (destructLoop xs.length count xs rest (i + names.length)).1,
         (destructLoop xs.length count xs rest (i + names.length)).2) := by
  intro names
  induction names with
  | nil => intro rest i _; simp
  | cons n ns ih =>
    intro rest i hle
    have hi : i < xs.length := by
      simp at hle
      omega
    have hrec := ih rest (i + 1) (by simp at hle ⊢; omega)
    simp only [List.map_cons, List.cons_append, destructLoop,
      List.getElem?_eq_getElem hi, List.append_eq_has_append]
    rw [hrec]
    have hidx : i + 1 + ns.length = i + (ns.length + 1) := by omega
    rw [hidx]
    have hdrop : xs.drop i = xs[i] :: xs.drop (i + 1) :=
      List.drop_eq_getElem_cons hi
    rw [hdrop, List.length_cons, List.take_succ_cons, List.zip_cons_cons]
    simp

theorem destructLoop_sink_some (count : Nat) (xs : List Value) (n : String)
    (rest : List DKind) (i : Nat) (h1 : count ≤ 1 + xs.length)
    (h2 : i + (1 + xs.length - count) ≤ xs.length) :
    destructLoop xs.length count xs (DKind.sink (some n) :: rest) i =
      ((n, Value.array ((xs.drop i).take (1 + xs.length - count))) ::
         (destructLoop xs.length count xs rest
           (i + (1 + xs.length - count))).1,
       (destructLoop xs.length count xs rest
         (i + (1 + xs.length - count))).2) := by
  simp [destructLoop, h1, h2]

theorem destructLoop_sink_short (count : Nat) (xs : List Value)
    (hc : 1 + xs.length < count) :
    ∀ (names : List String) (nm : Option String) (rest : List DKind) (i : Nat),
      (destructLoop xs.length count xs
        (names.map DKind.normal ++ DKind.sink nm :: rest) i).2 =
        some "not enough elements to destructure" := by
  intro names
  induction names with
  | nil =>
    intro nm rest i
    have hns : ¬ (count ≤ 1 + xs.length) := by omega
    simp [destructLoop, hns]
  | cons n ns ih =>
    intro nm rest i
    rcases hx : xs[i]? with _ | v
    · simp [destructLoop, hx]
    · simp [destructLoop, hx, ih]

/-- C6: for array destructuring with identifier bindings, (a) a single sink
absorbs the middle slice of size 1 + len - bindingCount, with the positional
bindings taking the surrounding elements and no error raised; (b) when the
sink's size would be negative (bindingCount exceeds 1 + len) the result is
the "not enough elements" error; and (c) with only positional bindings,
elements left over after all bindings are matched give the "too many"
error. -/
theorem c6_destruct_array :
    (∀ (pre post : List String) (nm : String) (xs : List Value),
       pre.length + post.length ≤ xs.length →
       destructArray
           (pre.map DKind.normal ++
             DKind.sink (some nm) :: post.map DKind.normal) xs =
         (pre.zip (xs.take pre.length) ++
            (nm, Value.array ((xs.drop pre.length).take
              (1 + xs.length - (pre.length + (post.length + 1))))) ::
            post.zip ((xs.drop (pre.length +
              (1 + xs.length - (pre.length + (post.length + 1))))).take
                post.length),
          Option.none)) ∧
    (∀ (pre : List String) (nm : Option String) (rest : List DKind)
       (xs : List Value),
       1 + xs.length <
         (pre.map DKind.normal ++ DKind.sink nm :: rest).length →
       (destructArray (pre.map DKind.normal ++ DKind.sink nm :: rest) xs).2 =
         some "not enough elements to destructure") ∧
    (∀ (names : List String) (xs : List Value),
       names.length < xs.length →
       (destructArray (names.map DKind.normal) xs).2 =
         some "too many elements to destructure") := by
  refine ⟨?_, ?_, ?_⟩
  · intro pre post nm xs hle
    unfold destructArray
    have hcount :
        (pre.map DKind.normal ++
          DKind.sink (some nm) :: post.map DKind.normal).length =
        pre.length + (post.length + 1) := by simp
    rw [hcount, destructLoop_normals _ xs pre _ 0 (by omega)]
    rw [destructLoop_sink_some _ xs nm _ _ (by omega) (by omega)]
    have hB := destructLoop_normals (pre.length + (post.length + 1)) xs post
      [] (0 + pre.length + (1 + xs.length - (pre.length + (post.length + 1))))
      (by omega)
    rw [List.append_nil] at hB
    rw [hB]
    have hfin :
        0 + pre.length + (1 + xs.length - (pre.length + (post.length + 1))) +
          post.length = xs.length := by omega
    rw [hfin]
    simp only [destructLoop, Nat.lt_irrefl, if_false]
    simp [Nat.zero_add]
  · intro pre nm rest xs hlen
    unfold destructArray
    rw [destructLoop_sink_short _ xs (by simpa using hlen) pre nm rest 0]
  · intro names xs hlt
    unfold destructArray
    have hB := destructLoop_normals (names.map DKind.normal).length xs names
      [] 0 (by omega)
    rw [List.append_nil] at hB
    rw [hB]
    simp only [destructLoop, Nat.zero_add]
    simp [hlt]

/-- C6 witness: the theorem applied to the specification's example
`(a, ..rest, b) = (1, 2, 3, 4, 5)` (the sink absorbs (2, 3, 4)), to a
negative-sink case, and to a too-many case. -/
theorem c6_destruct_array_witness :
    destructArray
        [DKind.normal "a", DKind.sink (some "rest"), DKind.normal "b"]
        [Value.int 1, Value.int 2, Value.int 3, Value.int 4, Value.int 5] =
      ([("a", Value.int 1),
        ("rest", Value.array [Value.int 2, Value.int 3, Value.int 4]),
        ("b", Value.int 5)], Option.none) ∧
    (destructArray
        [DKind.normal "a", DKind.normal "b", DKind.normal "c",
         DKind.sink Option.none]
        [Value.int 1]).2 = some "not enough elements to destructure" ∧
    (destructArray [DKind.normal "a", DKind.normal "b"]
        [Value.int 1, Value.int 2, Value.int 3]).2 =
      some "too many elements to destructure" := by
  refine ⟨?_, ?_, ?_⟩
  · have h := c6_destruct_array.1 ["a"] ["b"] "rest"
      [Value.int 1, Value.int 2, Value.int 3, Value.int 4, Value.int 5]
      (by decide)
    simpa using h
  · have h := c6_destruct_array.2.1 ["a", "b", "c"] Option.none []
      [Value.int 1] (by decide)
    simpa using h
  · have h := c6_destruct_array.2.2 ["a", "b"]
      [Value.int 1, Value.int 2, Value.int 3] (by decide)
    simpa using h

/-! ## C5: break, continue, return -/

/-- C5: break, continue and return evaluate to None; the VM's flow event is
set to the corresponding event only when none is pending, and a pending
event is never overwritten. For return, the optional body is evaluated first
and its value carried in the event. -/
theorem c5_flow_events (f : Nat) (sp : SpanM) (st : St) :
    ((evalE (f + 1) (Expr.breakE sp) st).1 = .val Value.none ∧
     ((evalE (f + 1) (Expr.breakE sp) st).2).flow =
       (if st.flow.isNone then some (FlowEvent.brk sp) else st.flow)) ∧
    ((evalE (f + 1) (Expr.continueE sp) st).1 = .val Value.none ∧
     ((evalE (f + 1) (Expr.continueE sp) st).2).flow =
       (if st.flow.isNone then some (FlowEvent.cont sp) else st.flow)) ∧
    ((evalE (f + 1) (Expr.returnE sp Option.none) st).1 = .val Value.none ∧
     ((evalE (f + 1) (Expr.returnE sp Option.none) st).2).flow =
       (if st.flow.isNone then some (FlowEvent.ret sp Option.none)
        else st.flow)) ∧
    (∀ (be : Expr) (v : Value) (st1 : St),
       evalE f be st = (.val v, st1) →
       (evalE (f + 1) (Expr.returnE sp (some be)) st).1 = .val Value.none ∧
       ((evalE (f + 1) (Expr.returnE sp (some be)) st).2).flow =
         (if st1.flow.isNone then some (FlowEvent.ret sp (some v))
          else st1.flow)) := by
  refine ⟨⟨?_, ?_⟩, ⟨?_, ?_⟩, ⟨?_, ?_⟩, ?_⟩
  · simp [evalE, Expr.span]
  · simp [evalE, Expr.span]
  · simp [evalE, Expr.span]
  · simp [evalE, Expr.span]
  · simp [evalE, Expr.span]
  · simp [evalE, Expr.span]
  · intro be v st1 h
    constructor
    · simp [evalE, Expr.span, h]
    · simp [evalE, Expr.span, h]

/-- C5 witness: the theorem applied at concrete states with and without a
pending flow event, including a return with a body. -/
theorem c5_flow_events_witness :
    (evalE 2 (Expr.breakE 4) st0).1 = .val Value.none ∧
    ((evalE 2 (Expr.breakE 4) st0).2).flow = some (FlowEvent.brk 4) ∧
    (evalE 2 (Expr.returnE 5 (some (Expr.litInt 6 3))) st0).1 =
      .val Value.none ∧
    ((evalE 2 (Expr.returnE 5 (some (Expr.litInt 6 3))) st0).2).flow =
      some (FlowEvent.ret 5 (some (Value.int 3))) := by
  have hb := (c5_flow_events 1 4 st0).1
  have hr := (c5_flow_events 1 5 st0).2.2.2 (Expr.litInt 6 3) (Value.int 3)
    st0 rfl
  refine ⟨hb.1, ?_, hr.1, ?_⟩
  · rw [hb.2]; rfl
  · rw [hr.2]; rfl

/-! ## C7: short-circuit evaluation -/

/-- C7: a binary `and` whose left operand evaluates to false, and a binary
`or` whose left operand evaluates to true, produce the left operand's value
with the state exactly as after evaluating the left operand (plus the
dispatcher's tracing of that value): the right operand - universally
quantified here - is never evaluated, so none of its side effects (including
unknown-variable failures) occur. -/
theorem c7_short_circuit (f : Nat) (sp : SpanM) (l r : Expr) (st st1 : St) :
    (evalE f l st = (.val (Value.bool false), st1) →
       evalE (f + 1) (Expr.binary sp BinOp.and l r) st =
         (.val (Value.bool false), st1.traceIf sp (Value.bool false))) ∧
    (evalE f l st = (.val (Value.bool true), st1) →
       evalE (f + 1) (Expr.binary sp BinOp.or l r) st =
         (.val (Value.bool true), st1.traceIf sp (Value.bool true))) := by
  constructor
  · intro h
    simp [evalE, Expr.span, h, shortCircuits]
  · intro h
    simp [evalE, Expr.span, h, shortCircuits]

/-- C7 witness: `false and nope` and `true or nope` evaluate to the left
boolean although `nope` is an unbound identifier whose evaluation would
fail. -/
theorem c7_short_circuit_witness :
    evalE 2 (Expr.binary 3 BinOp.and (Expr.litBool 1 false)
        (Expr.ident 2 "nope")) st0 =
      (.val (Value.bool false), st0) ∧
    evalE 2 (Expr.binary 3 BinOp.or (Expr.litBool 1 true)
        (Expr.ident 2 "nope")) st0 =
      (.val (Value.bool true), st0) ∧
    (evalE 1 (Expr.ident 2 "nope") st0).1 =
      .err ⟨2, unknownVariable "nope"⟩ := by
  have h1 := (c7_short_circuit 1 3 (Expr.litBool 1 false)
    (Expr.ident 2 "nope") st0 st0).1 rfl
  have h2 := (c7_short_circuit 1 3 (Expr.litBool 1 true)
    (Expr.ident 2 "nope") st0 st0).2 rfl
  exact ⟨h1, h2, rfl⟩

/-! ## C4: the iteration bound of while loops -/

/-- C4 (amended): when a while loop's iteration count has reached
MAX_ITERATIONS = 10000 and the condition still evaluates to true, the
iteration fails with the error "loop seems to be infinite" (spanned at the
loop) without evaluating the body; since the loop starts at count 0 and the
count increases by one per body evaluation, the body is never evaluated more
than 10000 times. -/
theorem c4_loop_iteration_bound (f : Nat) (sp : SpanM) (c b : Expr)
    (i : Nat) (out : Value) (st st1 : St) (cv : Value) :
    evalE f c st = (.val cv, st1) →
    castBool cv = Except.ok true →
    MAX_ITERATIONS ≤ i →
    whileIter (f + 1) sp c b i out st =
      (.err ⟨sp, "loop seems to be infinite"⟩, st1) := by
  intro hc hcast hi
  have hne : (i == 0) = false := by
    simp only [beq_eq_false_iff_ne, ne_eq]
    have : 0 < i := lt_of_lt_of_le (by norm_num [MAX_ITERATIONS]) hi
    omega
  simp [whileIter, hc, hcast, hne, hi]

/-- C4 witness: a variant condition (the identifier `x`, bound to true) with
iteration count 10000 fails with "loop seems to be infinite". -/
theorem c4_loop_iteration_bound_witness :
    whileIter 2 7 (Expr.ident 1 "x") (Expr.litNone 2) 10000 Value.none stX =
      (.err ⟨7, "loop seems to be infinite"⟩, stX) := by
  exact c4_loop_iteration_bound 1 7 (Expr.ident 1 "x") (Expr.litNone 2)
    10000 Value.none stX stX (Value.bool true) rfl rfl (by norm_num [MAX_ITERATIONS])

/-- C4 counterexample: at the iteration bound the raised error message is
"loop seems to be infinite", not "loop seems infinite" as the claim states. -/
theorem c4_counterexample_error_message :
    (whileIter 2 7 (Expr.ident 1 "x") (Expr.litNone 2) 10000 Value.none
        stX).1 =
      .err ⟨7, "loop seems to be infinite"⟩ ∧
    "loop seems to be infinite" ≠ "loop seems infinite" := by
  exact ⟨rfl, by decide⟩

/-! ## C8: always-true condition detection -/

/-- C8: on the first iteration only (count 0), once the condition has
evaluated to true, a syntactically invariant condition combined with a
non-diverging body fails with "condition is always true" at the condition's
span; when the condition is variant or the body can diverge, the check does
not reject the loop and evaluation proceeds to the body step. -/
theorem c8_always_true_detection (f : Nat) (sp : SpanM) (c b : Expr)
    (out : Value) (st st1 : St) (cv : Value) :
    evalE f c st = (.val cv, st1) →
    castBool cv = Except.ok true →
    ((isInvariant c = true ∧ canDiverge b = false →
       whileIter (f + 1) sp c b 0 out st =
         (.err ⟨c.span, "condition is always true"⟩, st1)) ∧
     (isInvariant c = false ∨ canDiverge b = true →
       whileIter (f + 1) sp c b 0 out st = whileGo f sp c b 0 out st1)) := by
  intro hc hcast
  constructor
  · rintro ⟨hinv, hdiv⟩
    simp [whileIter, hc, hcast, hinv, hdiv]
  · intro h
    have hfalse : (0 == 0 && isInvariant c && !canDiverge b) = false := by
      rcases h with h | h <;> simp [h]
    simp only [whileIter, hc, hcast]
    rw [hfalse]
    simp [MAX_ITERATIONS]

/-- C8 witness: `while true { }`-style loop (literal condition, literal
body) is rejected with "condition is always true"; the same loop with the
variant condition `x` instead proceeds to the body step, as does a loop
whose condition is the block `{ let x = 1; true }` - variant because the
binding identifier is an Ident child of the let binding. -/
theorem c8_always_true_detection_witness :
    whileIter 2 9 (Expr.litBool 1 true) (Expr.litNone 2) 0 Value.none st0 =
      (.err ⟨1, "condition is always true"⟩, st0) ∧
    whileIter 2 9 (Expr.ident 1 "x") (Expr.litNone 2) 0 Value.none stX =
      whileGo 1 9 (Expr.ident 1 "x") (Expr.litNone 2) 0 Value.none stX ∧
    whileIter 6 9
        (Expr.codeBlock 0 [Expr.letBind 1 "x" (some (Expr.litInt 2 1)),
          Expr.litBool 3 true])
        (Expr.litNone 4) 0 Value.none st0 =
      whileGo 5 9
        (Expr.codeBlock 0 [Expr.letBind 1 "x" (some (Expr.litInt 2 1)),
          Expr.litBool 3 true])
        (Expr.litNone 4) 0 Value.none st0 := by
  refine ⟨?_, ?_, ?_⟩
  · exact (c8_always_true_detection 1 9 (Expr.litBool 1 true)
      (Expr.litNone 2) Value.none st0 st0 (Value.bool true) rfl rfl).1
      ⟨rfl, rfl⟩
  · exact (c8_always_true_detection 1 9 (Expr.ident 1 "x")
      (Expr.litNone 2) Value.none stX stX (Value.bool true) rfl rfl).2
      (Or.inl rfl)
  · exact (c8_always_true_detection 5 9
      (Expr.codeBlock 0 [Expr.letBind 1 "x" (some (Expr.litInt 2 1)),
        Expr.litBool 3 true])
      (Expr.litNone 4) Value.none st0 st0 (Value.bool true) rfl rfl).2
      (Or.inl rfl)

/-! ## C3: the shapes that can yield a mutable location -/

/-- The four node shapes dispatched to their own eval_maybe_mut by
Expr::eval_maybe_mut. -/
def isMutShapeB : Expr → Bool
  | .ident _ _ => true
  | .paren _ _ => true
  | .fieldAccess _ _ _ => true
  | .funcCall _ _ _ => true
  | _ => false

theorem finishCall_no_mut (inM : Bool) (cs sp : SpanM) (cv : Value)
    (avs : List Value) (st stO : St) (m : MaybeMutM)
    (h : finishCall inM cs sp cv avs st = (.val m, stO)) :
    ∃ v, m = MaybeMutM.im v sp .temporary := by
  unfold finishCall at h
  split at h
  · split at h
    · simp only [Prod.mk.injEq, EvalResult.val.injEq] at h
      exact ⟨_, h.1.symm⟩
    · simp at h
  · split at h
    · split at h
      · simp only [Prod.mk.injEq, EvalResult.val.injEq] at h
        exact ⟨_, h.1.symm⟩
      · simp at h
    · simp at h

theorem evalFieldAccessMM_mut_inv (f : Nat) (sp : SpanM) (t : Expr)
    (fld : String) (st stO : St) (loc : Loc) (v : Value)
    (h : evalFieldAccessMM f sp t fld st = (.val (.mutRef loc v), stO)) :
    ∃ (g : Nat) (loc2 : Loc) (d : List (String × Value)) (st2 : St),
      evalMaybeMutE g t st =
        (.val (.mutRef loc2 (Value.dict d)), st2) := by
  match f with
  | 0 => simp [evalFieldAccessMM] at h
  | Nat.succ g =>
    simp only [evalFieldAccessMM] at h
    rcases hT : evalMaybeMutE g t st with ⟨rT, st1⟩
    rw [hT] at h
    match rT with
    | .val tv =>
      match tv with
      | .mutRef loc2 (Value.dict d) => exact ⟨g, loc2, d, st1, hT⟩
      | .mutRef loc2 Value.none | .mutRef loc2 (Value.bool _)
      | .mutRef loc2 (Value.int _) | .mutRef loc2 (Value.str _)
      | .mutRef loc2 (Value.array _) | .mutRef loc2 (Value.func _)
      | .mutRef loc2 (Value.module _) | .mutRef loc2 (Value.symbol _)
      | .mutRef loc2 (Value.content _) | .im v2 sp2 r2 =>
        simp only [MaybeMutM.derefM] at h
        split at h <;> simp [MaybeMutM.temp] at h
    | .err er => simp at h
    | .nofuel => simp at h

theorem asFieldAccess_some_inv (c : Expr) (sp2 : SpanM) (t : Expr)
    (fld : String) (h : asFieldAccess c = some (sp2, t, fld)) :
    c = Expr.fieldAccess sp2 t fld := by
  cases c <;> simp [asFieldAccess] at h
  obtain ⟨h1, h2, h3⟩ := h
  rw [h1, h2, h3]

theorem evalFuncCallMM_mut_from_method (f : Nat) (sp : SpanM) (c : Expr)
    (args : List Expr) (st stO : St) (loc : Loc) (v : Value)
    (h : evalFuncCallMM f sp c args st = (.val (.mutRef loc v), stO)) :
    ∃ (sp2 : SpanM) (t : Expr) (fld : String),
      c = Expr.fieldAccess sp2 t fld ∧
      ∃ (tgt : MaybeMutM) (avs : List Value),
        methodsCall tgt fld avs =
          Except.ok (MaybeMutM.mutRef loc v) := by
  match f with
  | 0 => simp [evalFuncCallMM] at h
  | Nat.succ g =>
    by_cases hdep : MAX_CALL_DEPTH ≤ st.depth
    · simp [evalFuncCallMM, hdep] at h
    · rcases hFA : asFieldAccess c with _ | ⟨sp2, t, fld⟩
      · rcases hC : evalE g c st with ⟨rC, st1⟩
        cases rC with
        | val cv =>
          rcases hA : evalArgsL g args st1 with ⟨rA, st2⟩
          cases rA with
          | val avs =>
            simp only [evalFuncCallMM, hdep, hFA, hC, hA, if_false] at h
            rcases finishCall_no_mut _ _ _ _ _ _ _ _ h with ⟨v2, hv2⟩
            simp at hv2
          | err er => simp [evalFuncCallMM, hdep, hFA, hC, hA] at h
          | nofuel => simp [evalFuncCallMM, hdep, hFA, hC, hA] at h
        | err er => simp [evalFuncCallMM, hdep, hFA, hC] at h
        | nofuel => simp [evalFuncCallMM, hdep, hFA, hC] at h
      · rcases hA : evalArgsL g args st with ⟨rA, st1⟩
        cases rA with
        | val avs =>
          rcases hT : evalMaybeMutE g t st1 with ⟨rT, st2⟩
          cases rT with
          | val tgt =>
            by_cases hdisp : (!(isSymModFunc tgt.derefM)
                || (methodsOn (typeNameOf tgt.derefM)).contains fld) = true
            · have hd2 : isSymModFunc tgt.derefM = false ∨
                  fld ∈ methodsOn (typeNameOf tgt.derefM) := by
                simpa using hdisp
              rcases hM : methodsCall tgt fld avs with msg | m
              · simp [evalFuncCallMM, hdep, hFA, hA, hT, hd2, hM] at h
              · simp only [evalFuncCallMM, hFA, hA, hT, hM] at h
                rw [if_neg hdep, if_pos hdisp] at h
                refine ⟨sp2, t, fld, asFieldAccess_some_inv c sp2 t fld hFA,
                  tgt, avs, ?_⟩
                rw [hM]
                simp only [Prod.mk.injEq, EvalResult.val.injEq] at h
                rw [h.1]
            · have hd2 : ¬ (isSymModFunc tgt.derefM = false ∨
                  fld ∈ methodsOn (typeNameOf tgt.derefM)) := by
                simpa using hdisp
              rcases hF : fieldOf tgt.derefM fld with msg | cv
              · simp [evalFuncCallMM, hdep, hFA, hA, hT, hd2, hF] at h
              · simp only [evalFuncCallMM, hFA, hA, hT, hF] at h
                rw [if_neg hdep, if_neg hdisp] at h
                rcases finishCall_no_mut _ _ _ _ _ _ _ _ h with ⟨v2, hv2⟩
                simp at hv2
          | err er => simp [evalFuncCallMM, hdep, hFA, hA, hT] at h
          | nofuel => simp [evalFuncCallMM, hdep, hFA, hA, hT] at h
        | err er => simp [evalFuncCallMM, hdep, hFA, hA] at h
        | nofuel => simp [evalFuncCallMM, hdep, hFA, hA] at h

/-- The postlude applied by Expr::eval_maybe_mut's default arm: a value is
wrapped as a temporary at the expression's span (and traced); errors pass
through. -/
def tempPost (sp : SpanM) : EvalResult Value × St → EvalResult MaybeMutM × St
  | (.val v, st1) => (.val (MaybeMutM.im v sp .temporary), st1.traceIf sp v)
  | (.err er, st1) => (.err er, st1)
  | (.nofuel, st1) => (.nofuel, st1)

theorem evalMaybeMutE_default (f : Nat) (e : Expr) (st : St)
    (rE : EvalResult Value) (st1 : St) (h : isMutShapeB e = false)
    (hE : evalE f e st = (rE, st1)) :
    evalMaybeMutE (f + 1) e st = tempPost e.span (rE, st1) := by
  cases e <;>
    first
      | (simp only [evalMaybeMutE, Expr.span]
         rw [hE]
         cases rE <;> rfl)
      | exact absurd h (by simp [isMutShapeB])

/-- C3: (a) a mutable location can only come out of the four dispatched
shapes - an identifier, a parenthesized expression (delegating to its
inner expression), a field access whose target itself evaluated to a
mutable dictionary, or a function call whose callee is a field access
dispatched as a method call whose method returned the mutable reference;
and (b) every other expression shape evaluates to Im with reason Temporary
carrying the evaluated value and the expression's span (errors pass
through unchanged). -/
theorem c3_mut_only_from_mut_shapes :
    (∀ (f : Nat) (e : Expr) (st stO : St) (loc : Loc) (v : Value),
       evalMaybeMutE f e st = (.val (.mutRef loc v), stO) →
       (∃ sp n, e = Expr.ident sp n) ∨
       (∃ sp inner, e = Expr.paren sp inner) ∨
       (∃ sp t fld, e = Expr.fieldAccess sp t fld ∧
          ∃ (g : Nat) (loc2 : Loc) (d : List (String × Value)) (st2 : St),
            evalMaybeMutE g t st =
              (.val (.mutRef loc2 (Value.dict d)), st2)) ∨
       (∃ sp c args sp2 t fld, e = Expr.funcCall sp c args ∧
          c = Expr.fieldAccess sp2 t fld ∧
          ∃ (tgt : MaybeMutM) (avs : List Value),
            methodsCall tgt fld avs =
              Except.ok (MaybeMutM.mutRef loc v))) ∧
    (∀ (f : Nat) (e : Expr) (st : St), isMutShapeB e = false →
       (∀ (v : Value) (st1 : St), evalE f e st = (.val v, st1) →
          evalMaybeMutE (f + 1) e st =
            (.val (MaybeMutM.im v e.span .temporary), st1.traceIf e.span v)) ∧
       (∀ (er : SErr) (st1 : St), evalE f e st = (.err er, st1) →
          evalMaybeMutE (f + 1) e st = (.err er, st1))) := by
  constructor
  · intro f e st stO loc v h
    match f with
    | 0 => simp [evalMaybeMutE] at h
    | Nat.succ g =>
      by_cases hshape : isMutShapeB e = false
      · rcases hE : evalE g e st with ⟨rE, st1⟩
        rw [evalMaybeMutE_default g e st rE st1 hshape hE] at h
        cases rE <;> simp [tempPost] at h
      · cases e <;> simp [isMutShapeB] at hshape
        next sp n => exact Or.inl ⟨sp, n, rfl⟩
        next sp inner => exact Or.inr (Or.inl ⟨sp, inner, rfl⟩)
        next sp t fld =>
          refine Or.inr (Or.inr (Or.inl ⟨sp, t, fld, rfl, ?_⟩))
          simp only [evalMaybeMutE, Expr.span] at h
          rcases hS : evalFieldAccessMM g sp t fld st with ⟨rS, stS⟩
          rw [hS] at h
          cases rS with
          | val m =>
            cases m with
            | mutRef l2 v2 =>
              simp only [MaybeMutM.mmSpanned, MaybeMutM.derefM,
                Prod.mk.injEq, EvalResult.val.injEq,
                MaybeMutM.mutRef.injEq] at h
              obtain ⟨⟨h1, h2⟩, h3⟩ := h
              rw [h1, h2] at hS
              exact evalFieldAccessMM_mut_inv g sp t fld st stS loc v hS
            | im v2 sp2 r2 => simp [MaybeMutM.mmSpanned] at h
          | err er => simp at h
          | nofuel => simp at h
        next sp c args =>
          simp only [evalMaybeMutE, Expr.span] at h
          rcases hS : evalFuncCallMM g sp c args st with ⟨rS, stS⟩
          rw [hS] at h
          cases rS with
          | val m =>
            cases m with
            | mutRef l2 v2 =>
              simp only [MaybeMutM.mmSpanned, MaybeMutM.derefM,
                Prod.mk.injEq, EvalResult.val.injEq,
                MaybeMutM.mutRef.injEq] at h
              obtain ⟨⟨h1, h2⟩, h3⟩ := h
              rw [h1, h2] at hS
              rcases evalFuncCallMM_mut_from_method g sp c args st stS loc v
                hS with ⟨sp2, t, fld, hc, tgt, avs, hm⟩
              exact Or.inr (Or.inr (Or.inr
                ⟨sp, c, args, sp2, t, fld, rfl, hc, tgt, avs, hm⟩))
            | im v2 sp2 r2 => simp [MaybeMutM.mmSpanned] at h
          | err er => simp at h
          | nofuel => simp at h
  · intro f e st hshape
    constructor
    · intro v st1 hE
      rw [evalMaybeMutE_default f e st (.val v) st1 hshape hE]
      rfl
    · intro er st1 hE
      rw [evalMaybeMutE_default f e st (.err er) st1 hshape hE]
      rfl

/-- C3 witness: a mutable identifier lookup lands in the first disjunct of
part (a); a literal (non-mut shape) evaluates to a temporary Im carrying its
value and span per part (b). -/
theorem c3_mut_only_from_mut_shapes_witness :
    ((∃ sp n, Expr.ident 0 "x" = Expr.ident sp n) ∨
     (∃ sp inner, Expr.ident 0 "x" = Expr.paren sp inner) ∨
     (∃ sp t fld, Expr.ident 0 "x" = Expr.fieldAccess sp t fld ∧
        ∃ (g : Nat) (loc2 : Loc) (d : List (String × Value)) (st2 : St),
          evalMaybeMutE g t stX =
            (.val (.mutRef loc2 (Value.dict d)), st2)) ∨
     (∃ sp c args sp2 t fld, Expr.ident 0 "x" = Expr.funcCall sp c args ∧
        c = Expr.fieldAccess sp2 t fld ∧
        ∃ (tgt : MaybeMutM) (avs : List Value),
          methodsCall tgt fld avs =
            Except.ok (MaybeMutM.mutRef (Loc.svar 0 "x")
              (Value.bool true)))) ∧
    evalMaybeMutE 2 (Expr.litInt 1 5) st0 =
      (.val (MaybeMutM.im (Value.int 5) 1 .temporary), st0) := by
  constructor
  · exact c3_mut_only_from_mut_shapes.1 2 (Expr.ident 0 "x") stX stX
      (Loc.svar 0 "x") (Value.bool true) rfl
  · exact (c3_mut_only_from_mut_shapes.2 1 (Expr.litInt 1 5) st0 rfl).1
      (Value.int 5) st0 rfl

/-! ## C2: scope-stack balance -/

/-- Scope-stack accounting for one evaluation step: the stack never shrinks
below its entry size, and a successful value restores it exactly. -/
def BalP {α : Type} (st : St) (p : EvalResult α × St) : Prop :=
  st.stackLen ≤ p.2.stackLen ∧ (p.1.isVal = true → p.2.stackLen = st.stackLen)

theorem balp_const {α : Type} (st st1 : St) (r : EvalResult α)
    (h : st1.stackLen = st.stackLen) : BalP st (r, st1) :=
  ⟨le_of_eq h.symm, fun _ => h⟩

theorem balp_notval {α : Type} (st st1 : St) (r : EvalResult α)
    (h : st.stackLen ≤ st1.stackLen) (hr : r.isVal = false) :
    BalP st (r, st1) :=
  ⟨h, fun hv => absurd (hr ▸ hv) (by simp)⟩

theorem balp_elim {α : Type} {st st1 : St} {r : EvalResult α}
    (h : BalP st (r, st1)) :
    st.stackLen ≤ st1.stackLen ∧
      (r.isVal = true → st1.stackLen = st.stackLen) := h

@[simp]
theorem stackLen_ite_flow (c : Prop) [Decidable c] (st : St)
    (x : Option FlowEvent) :
    St.stackLen (if c then { st with flow := x } else st) = st.stackLen := by
  split <;> rfl

theorem finishCall_snd (inM : Bool) (cs sp : SpanM) (cv : Value)
    (avs : List Value) (st : St) :
    (finishCall inM cs sp cv avs st).2 = st := by
  unfold finishCall
  split
  · split <;> rfl
  · split
    · split <;> rfl
    · rfl

theorem balp_finishCall {st st2 : St} (inM : Bool) (cs sp : SpanM)
    (cv : Value) (avs : List Value) (h : st2.stackLen = st.stackLen) :
    BalP st (finishCall inM cs sp cv avs st2) := by
  unfold finishCall
  split
  · split <;> exact balp_const _ _ _ h
  · split
    · split <;> exact balp_const _ _ _ h
    · exact balp_const _ _ _ h

theorem balanced_all : ∀ n : Nat,
    (∀ (e : Expr) (st : St), BalP st (evalE n e st)) ∧
    (∀ (e : Expr) (st : St), BalP st (evalMaybeMutE n e st)) ∧
    (∀ (sp : SpanM) (t : Expr) (fld : String) (st : St),
       BalP st (evalFieldAccessMM n sp t fld st)) ∧
    (∀ (sp : SpanM) (c : Expr) (args : List Expr) (st : St),
       BalP st (evalFuncCallMM n sp c args st)) ∧
    (∀ (args : List Expr) (st : St), BalP st (evalArgsL n args st)) ∧
    (∀ (es : List Expr) (out : Value) (st : St),
       BalP st (evalCodeLoop n es out st)) ∧
    (∀ (sp : SpanM) (c b : Expr) (i : Nat) (out : Value) (st : St),
       BalP st (whileIter n sp c b i out st)) ∧
    (∀ (sp : SpanM) (c b : Expr) (i : Nat) (out : Value) (st : St),
       BalP st (whileGo n sp c b i out st)) ∧
    (∀ (sp : SpanM) (var : String) (b : Expr) (vals : List Value)
       (out : Value) (st : St), BalP st (forIter n sp var b vals out st)) := by
  intro n
  induction n with
  | zero =>
    refine ⟨?_, ?_, ?_, ?_, ?_, ?_, ?_, ?_, ?_⟩ <;> intros <;>
      simp [BalP, evalE, evalMaybeMutE, evalFieldAccessMM, evalFuncCallMM,
        evalArgsL, evalCodeLoop, whileIter, whileGo, forIter,
        EvalResult.isVal]
  | succ n ih =>
    obtain ⟨ihA, ihB, ihFA, ihFC, ihD, ihE, ihW, ihG, ihF⟩ := ih
    have hA : ∀ (e : Expr) (st : St), BalP st (evalE (n + 1) e st) := by
      intro e st
      cases e with
      | ident sp nm =>
        rcases hg : st.scopes.get nm with m | v <;>
          simp [BalP, evalE, Expr.span, hg, EvalResult.isVal]
      | mathIdent sp nm =>
        rcases hg : st.scopes.getInMath nm with m | v <;>
          simp [BalP, evalE, Expr.span, hg, EvalResult.isVal]
      | litNone sp => simp [BalP, evalE, Expr.span, EvalResult.isVal]
      | litBool sp b => simp [BalP, evalE, Expr.span, EvalResult.isVal]
      | litInt sp i => simp [BalP, evalE, Expr.span, EvalResult.isVal]
      | litStr sp s => simp [BalP, evalE, Expr.span, EvalResult.isVal]
      | paren sp inner =>
        have hI := ihA inner st
        rcases h1 : evalE n inner st with ⟨r1, st1⟩
        rw [h1] at hI
        obtain ⟨hle1, hval1⟩ := balp_elim hI
        cases r1 with
        | val v =>
          have hs1 := hval1 rfl
          simp only [evalE, Expr.span, h1]
          exact balp_const _ _ _ (by simp only [stackLen_traceIf]; omega)
        | err er =>
          simp only [evalE, Expr.span, h1]
          exact balp_notval _ _ _ hle1 rfl
        | nofuel =>
          simp only [evalE, Expr.span, h1]
          exact balp_notval _ _ _ hle1 rfl
      | codeBlock sp body =>
        have hI := ihE body Value.none { st.enterSc with flow := Option.none }
        rcases h1 : evalCodeLoop n body Value.none
            { st.enterSc with flow := Option.none } with ⟨r1, st1⟩
        rw [h1] at hI
        obtain ⟨hle1, hval1⟩ := balp_elim hI
        have hen : St.stackLen { st.enterSc with flow := Option.none } =
            st.stackLen + 1 := by simp
        rw [hen] at hle1 hval1
        cases r1 with
        | val v =>
          have hs1 := hval1 rfl
          simp only [evalE, Expr.span, h1]
          exact balp_const _ _ _ (by
            simp only [stackLen_traceIf, stackLen_exitSc, stackLen_ite_flow]
            omega)
        | err er =>
          simp only [evalE, Expr.span, h1]
          exact balp_notval _ _ _ (by omega) rfl
        | nofuel =>
          simp only [evalE, Expr.span, h1]
          exact balp_notval _ _ _ (by omega) rfl
      | fieldAccess sp t fld =>
        have hI := ihA t st
        rcases h1 : evalE n t st with ⟨r1, st1⟩
        rw [h1] at hI
        obtain ⟨hle1, hval1⟩ := balp_elim hI
        cases r1 with
        | val v =>
          have hs1 := hval1 rfl
          rcases hf : fieldOf v fld with m | fv
          · simp only [evalE, Expr.span, h1, hf]
            exact balp_const _ _ _ (by omega)
          · simp only [evalE, Expr.span, h1, hf]
            exact balp_const _ _ _ (by simp only [stackLen_traceIf]; omega)
        | err er =>
          simp only [evalE, Expr.span, h1]
          exact balp_notval _ _ _ hle1 rfl
        | nofuel =>
          simp only [evalE, Expr.span, h1]
          exact balp_notval _ _ _ hle1 rfl
      | funcCall sp c args =>
        have hI := ihFC sp c args st
        rcases h1 : evalFuncCallMM n sp c args st with ⟨r1, st1⟩
        rw [h1] at hI
        obtain ⟨hle1, hval1⟩ := balp_elim hI
        cases r1 with
        | val m =>
          have hs1 := hval1 rfl
          simp only [evalE, Expr.span, h1]
          exact balp_const _ _ _ (by simp only [stackLen_traceIf]; omega)
        | err er =>
          simp only [evalE, Expr.span, h1]
          exact balp_notval _ _ _ hle1 rfl
        | nofuel =>
          simp only [evalE, Expr.span, h1]
          exact balp_notval _ _ _ hle1 rfl
      | binary sp op l r =>
        have hI := ihA l st
        rcases h1 : evalE n l st with ⟨r1, st1⟩
        rw [h1] at hI
        obtain ⟨hle1, hval1⟩ := balp_elim hI
        cases r1 with
        | val lv =>
          have hs1 := hval1 rfl
          by_cases hsc : shortCircuits op lv = true
          · simp only [evalE, Expr.span, h1]
            rw [if_pos hsc]
            exact balp_const _ _ _ (by simp only [stackLen_traceIf]; omega)
          · have hI2 := ihA r st1
            rcases h2 : evalE n r st1 with ⟨r2, st2⟩
            rw [h2] at hI2
            obtain ⟨hle2, hval2⟩ := balp_elim hI2
            cases r2 with
            | val rv =>
              have hs2 := hval2 rfl
              rcases hop : applyOp op lv rv with m | v
              · simp only [evalE, Expr.span, h1]
                rw [if_neg hsc]
                simp only [h2, hop]
                exact balp_notval _ _ _ (by omega) rfl
              · simp only [evalE, Expr.span, h1]
                rw [if_neg hsc]
                simp only [h2, hop]
                exact balp_const _ _ _ (by simp only [stackLen_traceIf]; omega)
            | err er =>
              simp only [evalE, Expr.span, h1]
              rw [if_neg hsc]
              simp only [h2]
              exact balp_notval _ _ _ (by omega) rfl
            | nofuel =>
              simp only [evalE, Expr.span, h1]
              rw [if_neg hsc]
              simp only [h2]
              exact balp_notval _ _ _ (by omega) rfl
        | err er =>
          simp only [evalE, Expr.span, h1]
          exact balp_notval _ _ _ hle1 rfl
        | nofuel =>
          simp only [evalE, Expr.span, h1]
          exact balp_notval _ _ _ hle1 rfl
      | letBind sp nm init =>
        cases init with
        | none => simp [BalP, evalE, Expr.span, EvalResult.isVal]
        | some ie =>
          have hI := ihA ie st
          rcases h1 : evalE n ie st with ⟨r1, st1⟩
          rw [h1] at hI
          obtain ⟨hle1, hval1⟩ := balp_elim hI
          cases r1 with
          | val v =>
            have hs1 := hval1 rfl
            simp only [evalE, Expr.span, h1]
            exact balp_const _ _ _ (by
              simp only [stackLen_traceIf, stackLen_defineVar]; omega)
          | err er =>
            simp only [evalE, Expr.span, h1]
            exact balp_notval _ _ _ hle1 rfl
          | nofuel =>
            simp only [evalE, Expr.span, h1]
            exact balp_notval _ _ _ hle1 rfl
      | whileLoop sp c b =>
        have hI := ihW sp c b 0 Value.none { st with flow := Option.none }
        rcases h1 : whileIter n sp c b 0 Value.none
            { st with flow := Option.none } with ⟨r1, st1⟩
        rw [h1] at hI
        obtain ⟨hle1, hval1⟩ := balp_elim hI
        simp only [stackLen_setFlow] at hle1 hval1
        cases r1 with
        | val v =>
          have hs1 := hval1 rfl
          simp only [evalE, Expr.span, h1]
          exact balp_const _ _ _ (by
            simp only [stackLen_traceIf, stackLen_ite_flow]; omega)
        | err er =>
          simp only [evalE, Expr.span, h1]
          exact balp_notval _ _ _ hle1 rfl
        | nofuel =>
          simp only [evalE, Expr.span, h1]
          exact balp_notval _ _ _ hle1 rfl
      | forLoop sp var it b =>
        have hI := ihA it { st with flow := Option.none }
        rcases h1 : evalE n it { st with flow := Option.none } with ⟨r1, st1⟩
        rw [h1] at hI
        obtain ⟨hle1, hval1⟩ := balp_elim hI
        simp only [stackLen_setFlow] at hle1 hval1
        cases r1 with
        | val itv =>
          have hs1 := hval1 rfl
          rcases hiv : iterValues itv with m | vals
          · simp only [evalE, Expr.span, h1, hiv]
            exact balp_const _ _ _ (by omega)
          · have hI2 := ihF sp var b vals Value.none st1.enterSc
            rcases h2 : forIter n sp var b vals Value.none st1.enterSc
              with ⟨r2, st2⟩
            rw [h2] at hI2
            obtain ⟨hle2, hval2⟩ := balp_elim hI2
            simp only [stackLen_enterSc] at hle2 hval2
            cases r2 with
            | val out =>
              have hs2 := hval2 rfl
              simp only [evalE, Expr.span, h1, hiv, h2]
              exact balp_const _ _ _ (by
                simp only [stackLen_traceIf, stackLen_ite_flow,
                  stackLen_exitSc]
                omega)
            | err er =>
              simp only [evalE, Expr.span, h1, hiv, h2]
              exact balp_notval _ _ _ (by omega) rfl
            | nofuel =>
              simp only [evalE, Expr.span, h1, hiv, h2]
              exact balp_notval _ _ _ (by omega) rfl
        | err er =>
          simp only [evalE, Expr.span, h1]
          exact balp_notval _ _ _ hle1 rfl
        | nofuel =>
          simp only [evalE, Expr.span, h1]
          exact balp_notval _ _ _ hle1 rfl
      | breakE sp => simp [BalP, evalE, Expr.span, EvalResult.isVal]
      | continueE sp => simp [BalP, evalE, Expr.span, EvalResult.isVal]
      | returnE sp body =>
        cases body with
        | none => simp [BalP, evalE, Expr.span, EvalResult.isVal]
        | some be =>
          have hI := ihA be st
          rcases h1 : evalE n be st with ⟨r1, st1⟩
          rw [h1] at hI
          obtain ⟨hle1, hval1⟩ := balp_elim hI
          cases r1 with
          | val v =>
            have hs1 := hval1 rfl
            simp only [evalE, Expr.span, h1]
            exact balp_const _ _ _ (by
              simp only [stackLen_traceIf, stackLen_raiseFlow]; omega)
          | err er =>
            simp only [evalE, Expr.span, h1]
            exact balp_notval _ _ _ hle1 rfl
          | nofuel =>
            simp only [evalE, Expr.span, h1]
            exact balp_notval _ _ _ hle1 rfl
    have hB : ∀ (e : Expr) (st : St), BalP st (evalMaybeMutE (n + 1) e st) := by
      intro e st
      by_cases hshape : isMutShapeB e = false
      · have hI := ihA e st
        rcases h1 : evalE n e st with ⟨r1, st1⟩
        rw [h1] at hI
        obtain ⟨hle1, hval1⟩ := balp_elim hI
        rw [evalMaybeMutE_default n e st r1 st1 hshape h1]
        cases r1 with
        | val v =>
          have hs1 := hval1 rfl
          simp only [tempPost]
          exact balp_const _ _ _ (by simp only [stackLen_traceIf]; omega)
        | err er =>
          simp only [tempPost]
          exact balp_notval _ _ _ hle1 rfl
        | nofuel =>
          simp only [tempPost]
          exact balp_notval _ _ _ hle1 rfl
      · cases e <;> simp [isMutShapeB] at hshape
        next sp nm =>
          rcases hg : st.scopes.getMaybeMut nm sp with er | m <;>
            simp [BalP, evalMaybeMutE, Expr.span, hg, EvalResult.isVal]
        next sp inner =>
          have hI := ihB inner st
          rcases h1 : evalMaybeMutE n inner st with ⟨r1, st1⟩
          rw [h1] at hI
          obtain ⟨hle1, hval1⟩ := balp_elim hI
          cases r1 with
          | val m =>
            have hs1 := hval1 rfl
            simp only [evalMaybeMutE, Expr.span, h1]
            exact balp_const _ _ _ (by simp only [stackLen_traceIf]; omega)
          | err er =>
            simp only [evalMaybeMutE, Expr.span, h1]
            exact balp_notval _ _ _ hle1 rfl
          | nofuel =>
            simp only [evalMaybeMutE, Expr.span, h1]
            exact balp_notval _ _ _ hle1 rfl
        next sp t fld =>
          have hI := ihFA sp t fld st
          rcases h1 : evalFieldAccessMM n sp t fld st with ⟨r1, st1⟩
          rw [h1] at hI
          obtain ⟨hle1, hval1⟩ := balp_elim hI
          cases r1 with
          | val m =>
            have hs1 := hval1 rfl
            simp only [evalMaybeMutE, Expr.span, h1]
            exact balp_const _ _ _ (by simp only [stackLen_traceIf]; omega)
          | err er =>
            simp only [evalMaybeMutE, Expr.span, h1]
            exact balp_notval _ _ _ hle1 rfl
          | nofuel =>
            simp only [evalMaybeMutE, Expr.span, h1]
            exact balp_notval _ _ _ hle1 rfl
        next sp c args =>
          have hI := ihFC sp c args st
          rcases h1 : evalFuncCallMM n sp c args st with ⟨r1, st1⟩
          rw [h1] at hI
          obtain ⟨hle1, hval1⟩ := balp_elim hI
          cases r1 with
          | val m =>
            have hs1 := hval1 rfl
            simp only [evalMaybeMutE, Expr.span, h1]
            exact balp_const _ _ _ (by simp only [stackLen_traceIf]; omega)
          | err er =>
            simp only [evalMaybeMutE, Expr.span, h1]
            exact balp_notval _ _ _ hle1 rfl
          | nofuel =>
            simp only [evalMaybeMutE, Expr.span, h1]
            exact balp_notval _ _ _ hle1 rfl
    have hFA : ∀ (sp : SpanM) (t : Expr) (fld : String) (st : St),
        BalP st (evalFieldAccessMM (n + 1) sp t fld st) := by
      intro sp t fld st
      have hI := ihB t st
      rcases h1 : evalMaybeMutE n t st with ⟨r1, st1⟩
      rw [h1] at hI
      obtain ⟨hle1, hval1⟩ := balp_elim hI
      cases r1 with
      | val tv =>
        have hs1 := hval1 rfl
        simp only [evalFieldAccessMM, h1]
        split <;> (try split) <;> exact balp_const _ _ _ (by omega)
      | err er =>
        simp only [evalFieldAccessMM, h1]
        exact balp_notval _ _ _ (by omega) rfl
      | nofuel =>
        simp only [evalFieldAccessMM, h1]
        exact balp_notval _ _ _ (by omega) rfl
    have hFC : ∀ (sp : SpanM) (c : Expr) (args : List Expr) (st : St),
        BalP st (evalFuncCallMM (n + 1) sp c args st) := by
      intro sp c args st
      by_cases hdep : MAX_CALL_DEPTH ≤ st.depth
      · simp only [evalFuncCallMM]
        rw [if_pos hdep]
        exact balp_notval _ _ _ (by omega) rfl
      · rcases hFAc : asFieldAccess c with _ | ⟨sp2, t, fld⟩
        · have hI := ihA c st
          rcases h1 : evalE n c st with ⟨r1, st1⟩
          rw [h1] at hI
          obtain ⟨hle1, hval1⟩ := balp_elim hI
          cases r1 with
          | val cv =>
            have hs1 := hval1 rfl
            have hI2 := ihD args st1
            rcases h2 : evalArgsL n args st1 with ⟨r2, st2⟩
            rw [h2] at hI2
            obtain ⟨hle2, hval2⟩ := balp_elim hI2
            cases r2 with
            | val avs =>
              have hs2 := hval2 rfl
              simp only [evalFuncCallMM, hFAc, h1, h2]
              rw [if_neg hdep]
              exact balp_finishCall _ _ _ _ _ (by omega)
            | err er =>
              simp only [evalFuncCallMM, hFAc, h1, h2]
              rw [if_neg hdep]
              exact balp_notval _ _ _ (by omega) rfl
            | nofuel =>
              simp only [evalFuncCallMM, hFAc, h1, h2]
              rw [if_neg hdep]
              exact balp_notval _ _ _ (by omega) rfl
          | err er =>
            simp only [evalFuncCallMM, hFAc, h1]
            rw [if_neg hdep]
            exact balp_notval _ _ _ (by omega) rfl
          | nofuel =>
            simp only [evalFuncCallMM, hFAc, h1]
            rw [if_neg hdep]
            exact balp_notval _ _ _ (by omega) rfl
        · have hI := ihD args st
          rcases h1 : evalArgsL n args st with ⟨r1, st1⟩
          rw [h1] at hI
          obtain ⟨hle1, hval1⟩ := balp_elim hI
          cases r1 with
          | val avs =>
            have hs1 := hval1 rfl
            have hI2 := ihB t st1
            rcases h2 : evalMaybeMutE n t st1 with ⟨r2, st2⟩
            rw [h2] at hI2
            obtain ⟨hle2, hval2⟩ := balp_elim hI2
            cases r2 with
            | val tgt =>
              have hs2 := hval2 rfl
              simp only [evalFuncCallMM, hFAc, h1, h2]
              rw [if_neg hdep]
              split
              · split <;> exact balp_const _ _ _ (by omega)
              · split
                · exact balp_finishCall _ _ _ _ _ (by omega)
                · exact balp_const _ _ _ (by omega)
            | err er =>
              simp only [evalFuncCallMM, hFAc, h1, h2]
              rw [if_neg hdep]
              exact balp_notval _ _ _ (by omega) rfl
            | nofuel =>
              simp only [evalFuncCallMM, hFAc, h1, h2]
              rw [if_neg hdep]
              exact balp_notval _ _ _ (by omega) rfl
          | err er =>
            simp only [evalFuncCallMM, hFAc, h1]
            rw [if_neg hdep]
            exact balp_notval _ _ _ (by omega) rfl
          | nofuel =>
            simp only [evalFuncCallMM, hFAc, h1]
            rw [if_neg hdep]
            exact balp_notval _ _ _ (by omega) rfl
    have hD : ∀ (args : List Expr) (st : St),
        BalP st (evalArgsL (n + 1) args st) := by
      intro args st
      cases args with
      | nil => simp [BalP, evalArgsL, EvalResult.isVal]
      | cons a rest =>
        have hI := ihA a st
        rcases h1 : evalE n a st with ⟨r1, st1⟩
        rw [h1] at hI
        obtain ⟨hle1, hval1⟩ := balp_elim hI
        cases r1 with
        | val v =>
          have hs1 := hval1 rfl
          have hI2 := ihD rest st1
          rcases h2 : evalArgsL n rest st1 with ⟨r2, st2⟩
          rw [h2] at hI2
          obtain ⟨hle2, hval2⟩ := balp_elim hI2
          cases r2 with
          | val vs =>
            have hs2 := hval2 rfl
            simp only [evalArgsL, h1, h2]
            exact balp_const _ _ _ (by omega)
          | err er =>
            simp only [evalArgsL, h1, h2]
            exact balp_notval _ _ _ (by omega) rfl
          | nofuel =>
            simp only [evalArgsL, h1, h2]
            exact balp_notval _ _ _ (by omega) rfl
        | err er =>
          simp only [evalArgsL, h1]
          exact balp_notval _ _ _ (by omega) rfl
        | nofuel =>
          simp only [evalArgsL, h1]
          exact balp_notval _ _ _ (by omega) rfl
    have hE : ∀ (es : List Expr) (out : Value) (st : St),
        BalP st (evalCodeLoop (n + 1) es out st) := by
      intro es out st
      cases es with
      | nil => simp [BalP, evalCodeLoop, EvalResult.isVal]
      | cons e rest =>
        have hI := ihA e st
        rcases h1 : evalE n e st with ⟨r1, st1⟩
        rw [h1] at hI
        obtain ⟨hle1, hval1⟩ := balp_elim hI
        cases r1 with
        | val v =>
          have hs1 := hval1 rfl
          rcases hj : joinV out v with m | out1
          · simp only [evalCodeLoop, h1, hj]
            exact balp_notval _ _ _ (by omega) rfl
          · by_cases hf : st1.flow.isSome = true
            · simp only [evalCodeLoop, h1, hj]
              rw [if_pos hf]
              exact balp_const _ _ _ (by omega)
            · have hI2 := ihE rest out1 st1
              rcases h2 : evalCodeLoop n rest out1 st1 with ⟨r2, st2⟩
              rw [h2] at hI2
              obtain ⟨hle2, hval2⟩ := balp_elim hI2
              simp only [evalCodeLoop, h1, hj]
              rw [if_neg hf, h2]
              cases r2 with
              | val v2 =>
                have hs2 := hval2 rfl
                exact balp_const _ _ _ (by omega)
              | err er => exact balp_notval _ _ _ (by omega) rfl
              | nofuel => exact balp_notval _ _ _ (by omega) rfl
        | err er =>
          simp only [evalCodeLoop, h1]
          exact balp_notval _ _ _ (by omega) rfl
        | nofuel =>
          simp only [evalCodeLoop, h1]
          exact balp_notval _ _ _ (by omega) rfl
    have hW : ∀ (sp : SpanM) (c b : Expr) (i : Nat) (out : Value) (st : St),
        BalP st (whileIter (n + 1) sp c b i out st) := by
      intro sp c b i out st
      have hI := ihA c st
      rcases h1 : evalE n c st with ⟨r1, st1⟩
      rw [h1] at hI
      obtain ⟨hle1, hval1⟩ := balp_elim hI
      cases r1 with
      | val cv =>
        have hs1 := hval1 rfl
        rcases hcast : castBool cv with m | bv
        · simp only [whileIter, h1, hcast]
          exact balp_notval _ _ _ (by omega) rfl
        · cases bv with
          | false =>
            simp only [whileIter, h1, hcast]
            exact balp_const _ _ _ (by omega)
          | true =>
            by_cases hchk : (i == 0 && isInvariant c && !canDiverge b) = true
            · simp only [whileIter, h1, hcast]
              rw [if_pos hchk]
              exact balp_notval _ _ _ (by omega) rfl
            · by_cases hmax : MAX_ITERATIONS ≤ i
              · simp only [whileIter, h1, hcast]
                rw [if_neg hchk, if_pos hmax]
                exact balp_notval _ _ _ (by omega) rfl
              · have hI2 := ihG sp c b i out st1
                rcases h2 : whileGo n sp c b i out st1 with ⟨r2, st2⟩
                rw [h2] at hI2
                obtain ⟨hle2, hval2⟩ := balp_elim hI2
                simp only [whileIter, h1, hcast]
                rw [if_neg hchk, if_neg hmax, h2]
                cases r2 with
                | val v2 =>
                  have hs2 := hval2 rfl
                  exact balp_const _ _ _ (by omega)
                | err er => exact balp_notval _ _ _ (by omega) rfl
                | nofuel => exact balp_notval _ _ _ (by omega) rfl
      | err er =>
        simp only [whileIter, h1]
        exact balp_notval _ _ _ (by omega) rfl
      | nofuel =>
        simp only [whileIter, h1]
        exact balp_notval _ _ _ (by omega) rfl
    have hG : ∀ (sp : SpanM) (c b : Expr) (i : Nat) (out : Value) (st : St),
        BalP st (whileGo (n + 1) sp c b i out st) := by
      intro sp c b i out st
      have hI := ihA b st
      rcases h1 : evalE n b st with ⟨r1, st1⟩
      rw [h1] at hI
      obtain ⟨hle1, hval1⟩ := balp_elim hI
      cases r1 with
      | val v =>
        have hs1 := hval1 rfl
        rcases hj : joinV out v with m | out1
        · simp only [whileGo, h1, hj]
          exact balp_notval _ _ _ (by omega) rfl
        · rcases hfl : st1.flow with _ | ev
          · have hI2 := ihW sp c b (i + 1) out1 st1
            rcases h2 : whileIter n sp c b (i + 1) out1 st1 with ⟨r2, st2⟩
            rw [h2] at hI2
            obtain ⟨hle2, hval2⟩ := balp_elim hI2
            simp only [whileGo, h1, hj, hfl, h2]
            cases r2 with
            | val v2 =>
              have hs2 := hval2 rfl
              exact balp_const _ _ _ (by omega)
            | err er => exact balp_notval _ _ _ (by omega) rfl
            | nofuel => exact balp_notval _ _ _ (by omega) rfl
          · cases ev with
            | brk spb =>
              simp only [whileGo, h1, hj, hfl]
              exact balp_const _ _ _
                (by simp only [stackLen_setFlow]; omega)
            | cont spc =>
              have hI2 := ihW sp c b (i + 1) out1
                { st1 with flow := Option.none }
              rcases h2 : whileIter n sp c b (i + 1) out1
                  { st1 with flow := Option.none } with ⟨r2, st2⟩
              rw [h2] at hI2
              obtain ⟨hle2, hval2⟩ := balp_elim hI2
              simp only [stackLen_setFlow] at hle2 hval2
              simp only [whileGo, h1, hj, hfl, h2]
              cases r2 with
              | val v2 =>
                have hs2 := hval2 rfl
                exact balp_const _ _ _ (by omega)
              | err er => exact balp_notval _ _ _ (by omega) rfl
              | nofuel => exact balp_notval _ _ _ (by omega) rfl
            | ret spr vr =>
              simp only [whileGo, h1, hj, hfl]
              exact balp_const _ _ _ (by omega)
      | err er =>
        simp only [whileGo, h1]
        exact balp_notval _ _ _ (by omega) rfl
      | nofuel =>
        simp only [whileGo, h1]
        exact balp_notval _ _ _ (by omega) rfl
    have hF : ∀ (sp : SpanM) (var : String) (b : Expr) (vals : List Value)
        (out : Value) (st : St), BalP st (forIter (n + 1) sp var b vals out st) := by
      intro sp var b vals out st
      cases vals with
      | nil => simp [BalP, forIter, EvalResult.isVal]
      | cons v rest =>
        have hI := ihA b (st.defineVar sp var v)
        rcases h1 : evalE n b (st.defineVar sp var v) with ⟨r1, st1⟩
        rw [h1] at hI
        obtain ⟨hle1, hval1⟩ := balp_elim hI
        simp only [stackLen_defineVar] at hle1 hval1
        cases r1 with
        | val bv =>
          have hs1 := hval1 rfl
          rcases hj : joinV out bv with m | out1
          · simp only [forIter, h1, hj]
            exact balp_notval _ _ _ (by omega) rfl
          · rcases hfl : st1.flow with _ | ev
            · have hI2 := ihF sp var b rest out1 st1
              rcases h2 : forIter n sp var b rest out1 st1 with ⟨r2, st2⟩
              rw [h2] at hI2
              obtain ⟨hle2, hval2⟩ := balp_elim hI2
              simp only [forIter, h1, hj, hfl, h2]
              cases r2 with
              | val v2 =>
                have hs2 := hval2 rfl
                exact balp_const _ _ _ (by omega)
              | err er => exact balp_notval _ _ _ (by omega) rfl
              | nofuel => exact balp_notval _ _ _ (by omega) rfl
            · cases ev with
              | brk spb =>
                simp only [forIter, h1, hj, hfl]
                exact balp_const _ _ _
                  (by simp only [stackLen_setFlow]; omega)
              | cont spc =>
                have hI2 := ihF sp var b rest out1
                  { st1 with flow := Option.none }
                rcases h2 : forIter n sp var b rest out1
                    { st1 with flow := Option.none } with ⟨r2, st2⟩
                rw [h2] at hI2
                obtain ⟨hle2, hval2⟩ := balp_elim hI2
                simp only [stackLen_setFlow] at hle2 hval2
                simp only [forIter, h1, hj, hfl, h2]
                cases r2 with
                | val v2 =>
                  have hs2 := hval2 rfl
                  exact balp_const _ _ _ (by omega)
                | err er => exact balp_notval _ _ _ (by omega) rfl
                | nofuel => exact balp_notval _ _ _ (by omega) rfl
              | ret spr vr =>
                simp only [forIter, h1, hj, hfl]
                exact balp_const _ _ _ (by omega)
        | err er =>
          simp only [forIter, h1]
          exact balp_notval _ _ _ (by omega) rfl
        | nofuel =>
          simp only [forIter, h1]
          exact balp_notval _ _ _ (by omega) rfl
    exact ⟨hA, hB, hFA, hFC, hD, hE, hW, hG, hF⟩

/-- C2 (amended): after a successful evaluation the scope stack has exactly
its depth at entry; the stack never shrinks below the entry depth, but an
evaluation that returns with an error can leave entered scopes unexited, so
balance holds only on the success path. -/
theorem c2_scope_balance_on_success (n : Nat) (e : Expr) (st : St) :
    st.stackLen ≤ ((evalE n e st).2).stackLen ∧
    (((evalE n e st).1).isVal = true →
      ((evalE n e st).2).stackLen = st.stackLen) := by
  have h := (balanced_all n).1 e st
  rcases hx : evalE n e st with ⟨r, st1⟩
  rw [hx] at h
  exact balp_elim h

/-- C2 witness: the theorem applied to a successfully evaluated code block
(whose execution enters and exits one scope). -/
theorem c2_scope_balance_on_success_witness :
    ((evalE 9 (Expr.codeBlock 0 [Expr.letBind 1 "y" (some (Expr.litInt 2 1)),
        Expr.ident 3 "y"]) st0).2).stackLen = st0.stackLen := by
  exact (c2_scope_balance_on_success 9 (Expr.codeBlock 0
    [Expr.letBind 1 "y" (some (Expr.litInt 2 1)), Expr.ident 3 "y"])
    st0).2 rfl

/-- C2 counterexample: a code block whose body fails with an unknown
variable returns with the entered scope still on the stack - depth 1
against 0 at entry - so the number of exited scopes does not match the
number of entered scopes on the error path. -/
theorem c2_counterexample_error_path_unbalanced :
    (evalE 3 (Expr.codeBlock 0 [Expr.ident 1 "x"]) st0).1 =
      .err ⟨1, unknownVariable "x"⟩ ∧
    ((evalE 3 (Expr.codeBlock 0 [Expr.ident 1 "x"]) st0).2).stackLen = 1 ∧
    st0.stackLen = 0 :=
  ⟨rfl, rfl, rfl⟩

end TypstEval
